import Mathlib

set_option maxRecDepth 40000

/-!
Verification of the event-sourced case ledger (`src/case_store.py`, `src/memory.py`).

The development shallowly embeds the Python code: JSON values become an
inductive type, Python dicts become association lists (first-match lookup,
in-place replacement on insert, append for fresh keys — exactly the observable
behaviour of insertion-ordered Python dicts whose keys are unique, as produced
by `json.loads`), `datetime` objects become an explicit structure carrying an
optional UTC offset, and operations that can raise return `Except`.
All definitions are structurally recursive so that concrete runs reduce by
`rfl` / `decide` in the kernel.
-/

/-- A JSON value, as produced by Python's `json.loads`.
Numbers are kept as decimal mantissa/exponent pairs (`num m e` denotes
`m * 10 ^ e`), which is enough to round-trip every numeral the system writes;
the distinction between Python `int` and `float` is irrelevant to the ledger
logic, which never does arithmetic on payload numbers. -/
inductive JValue where
  | null : JValue
  | bool (b : Bool) : JValue
  | num (m : Int) (e : Int) : JValue
  | str (s : String) : JValue
  | arr (elems : List JValue) : JValue
  | obj (fields : List (String × JValue)) : JValue

/-- The fields of a Python dict (insertion ordered). -/
abbrev Robj := List (String × JValue)

/-- Exceptions the embedded code can raise. -/
inductive PyErr where
  | typeError : PyErr
  | attributeError : PyErr
deriving DecidableEq

/-- Python `d.get(k)`: `none` when the key is absent (Python `None` is only
conflated with JSON `null` where the code itself conflates them). -/
def dget (d : Robj) (k : String) : Option JValue :=
  match d with
  | [] => none
  | (k', v) :: rest => if k' = k then some v else dget rest k

/-- Python `d.get(k)` where the caller treats a missing key as `None`:
the absent case collapses to JSON null, mirroring how the projector stores
`rec.get(...)` results (Python `None`) in the state dict. -/
def dgetD (d : Robj) (k : String) : JValue :=
  (dget d k).getD .null

/-- Python `k in d`. -/
def hasKey (d : Robj) (k : String) : Bool :=
  (dget d k).isSome

/-- Python `d[k] = v` on an insertion-ordered dict: replace the first binding
of `k` in place, or append a fresh binding. -/
def dinsert (d : Robj) (k : String) (v : JValue) : Robj :=
  match d with
  | [] => [(k, v)]
  | (k', v') :: rest => if k' = k then (k, v) :: rest else (k', v') :: dinsert rest k v

/-- Python truthiness of a JSON value. -/
def pyFalsy : JValue → Bool
  | .null => true
  | .bool b => !b
  | .num m _ => m = 0
  | .str s => s = ""
  | .arr xs => xs.isEmpty
  | .obj fs => fs.isEmpty

/-- Whitespace for Python's `str.strip()` (the ASCII cases; the exotic
Unicode space classes never occur in this system's data). -/
def isPySpace (c : Char) : Bool :=
  c = ' ' || c = '\t' || c = '\n' || c = '\r' || c = '\x0b' || c = '\x0c'

/-- Python `str.strip()` on a character list. -/
def stripChars (cs : List Char) : List Char :=
  ((cs.dropWhile isPySpace).reverse.dropWhile isPySpace).reverse

/-- Python `str.strip()`. -/
def pyStrip (s : String) : String :=
  String.mk (stripChars s.data)

/-- Split a character stream at newline characters (the segments Python's
line iteration yields, minus the terminators that `strip()` removes anyway). -/
def splitNlAux : List Char → List Char → List (List Char)
  | [], acc => [acc.reverse]
  | c :: rest, acc =>
      if c = '\n' then acc.reverse :: splitNlAux rest []
      else splitNlAux rest (c :: acc)

/-- All lines of a file's contents. -/
def splitNl (cs : List Char) : List (List Char) :=
  splitNlAux cs []

/-! ## JSON decoding (Python `json.loads`)

A strict recursive-descent parser for the JSON the ledger holds, modelling
`json.loads`: literal `null`/`true`/`false`, strings with the standard
escapes, numbers without leading zeros, arrays and objects with arbitrary
interstitial whitespace, and nothing else on the line.  Duplicate object keys
keep the last value at the first key's position, as Python dicts do.  Fuel
bounds the recursion depth; `2 * length + 4` strictly dominates the parse
stack for any input. -/

/-- JSON structural whitespace (`json.decoder` accepts exactly these). -/
def isJsonWs (c : Char) : Bool :=
  c = ' ' || c = '\t' || c = '\n' || c = '\r'

/-- Skip structural whitespace. -/
def skipWs (cs : List Char) : List Char :=
  cs.dropWhile isJsonWs

/-- Decimal digit test. -/
def digit? (c : Char) : Bool :=
  '0' ≤ c && c ≤ '9'

/-- Value of a decimal digit string. -/
def digitsToNat (ds : List Char) : Nat :=
  ds.foldl (fun a c => a * 10 + (c.toNat - 48)) 0

/-- Value of a hex digit, if any. -/
def hexVal (c : Char) : Option Nat :=
  if '0' ≤ c && c ≤ '9' then some (c.toNat - 48)
  else if 'a' ≤ c && c ≤ 'f' then some (c.toNat - 87)
  else if 'A' ≤ c && c ≤ 'F' then some (c.toNat - 55)
  else none

/-- Parse the body of a JSON string (opening quote already consumed),
accumulating decoded characters in reverse. Raw control characters are
rejected (strict mode); surrogate-pair recombination is not modelled, as no
ledger writer emits astral-plane escapes. -/
def parseStrAux : List Char → List Char → Option (String × List Char)
  | [], _ => none
  | c :: rest, acc =>
    if c = '"' then some (String.mk acc.reverse, rest)
    else if c = '\\' then
      match rest with
      | '"' :: r2 => parseStrAux r2 ('"' :: acc)
      | '\\' :: r2 => parseStrAux r2 ('\\' :: acc)
      | '/' :: r2 => parseStrAux r2 ('/' :: acc)
      | 'b' :: r2 => parseStrAux r2 ('\x08' :: acc)
      | 'f' :: r2 => parseStrAux r2 ('\x0c' :: acc)
      | 'n' :: r2 => parseStrAux r2 ('\n' :: acc)
      | 'r' :: r2 => parseStrAux r2 ('\r' :: acc)
      | 't' :: r2 => parseStrAux r2 ('\t' :: acc)
      | 'u' :: a :: b :: c3 :: d :: r2 =>
        match hexVal a, hexVal b, hexVal c3, hexVal d with
        | some x, some y, some z, some w =>
            parseStrAux r2 (Char.ofNat (((x * 16 + y) * 16 + z) * 16 + w) :: acc)
        | _, _, _, _ => none
      | _ => none
    else if c.toNat < 32 then none
    else parseStrAux rest (c :: acc)

/-- Parse an optional fraction part `.ddd...` of a JSON number. -/
def parseFracPart : List Char → Option (List Char × List Char)
  | '.' :: r =>
      let fds := r.takeWhile digit?
      if fds.isEmpty then none else some (fds, r.dropWhile digit?)
  | cs => some ([], cs)

/-- Parse an optional exponent part of a JSON number. -/
def parseExpPart : List Char → Option (Int × List Char)
  | c :: r =>
      if c = 'e' || c = 'E' then
        let (sgn, r2) : Int × List Char :=
          match r with
          | '+' :: rr => (1, rr)
          | '-' :: rr => (-1, rr)
          | _ => (1, r)
        let eds := r2.takeWhile digit?
        if eds.isEmpty then none
        else some (sgn * (digitsToNat eds : Int), r2.dropWhile digit?)
      else some (0, c :: r)
  | [] => some (0, [])

/-- Parse a JSON number starting at the current position. -/
def parseNum (cs : List Char) : Option (JValue × List Char) :=
  let (neg, cs1) : Bool × List Char :=
    match cs with
    | '-' :: r => (true, r)
    | _ => (false, cs)
  let ds := cs1.takeWhile digit?
  let cs2 := cs1.dropWhile digit?
  if ds.isEmpty then none
  else if ds.head? = some '0' && ds.length > 1 then none
  else
    match parseFracPart cs2 with
    | none => none
    | some (fds, cs3) =>
      match parseExpPart cs3 with
      | none => none
      | some (ex, cs4) =>
        let mant : Int := (digitsToNat (ds ++ fds) : Int)
        some (.num (if neg then -mant else mant) (ex - (fds.length : Int)), cs4)

mutual

/-- Parse one JSON value (leading whitespace allowed). -/
def parseVal : Nat → List Char → Option (JValue × List Char)
  | 0, _ => none
  | fuel + 1, cs =>
    match skipWs cs with
    | 'n' :: 'u' :: 'l' :: 'l' :: rest => some (.null, rest)
    | 't' :: 'r' :: 'u' :: 'e' :: rest => some (.bool true, rest)
    | 'f' :: 'a' :: 'l' :: 's' :: 'e' :: rest => some (.bool false, rest)
    | '"' :: rest =>
      (match parseStrAux rest [] with
       | some (s, rest2) => some (.str s, rest2)
       | none => none)
    | '[' :: rest =>
      (match skipWs rest with
       | ']' :: rest2 => some (.arr [], rest2)
       | rest2 =>
         match parseElems fuel rest2 [] with
         | some (xs, rest3) => some (.arr xs, rest3)
         | none => none)
    | '\x7b' :: rest =>
      (match skipWs rest with
       | '\x7d' :: rest2 => some (.obj [], rest2)
       | rest2 =>
         match parseMembers fuel rest2 [] with
         | some (fs, rest3) => some (.obj fs, rest3)
         | none => none)
    | cs2 => parseNum cs2

/-- Parse the elements of a non-empty JSON array, accumulating in reverse. -/
def parseElems : Nat → List Char → List JValue → Option (List JValue × List Char)
  | 0, _, _ => none
  | fuel + 1, cs, acc =>
    match parseVal fuel cs with
    | none => none
    | some (v, rest) =>
      match skipWs rest with
      | ',' :: rest2 => parseElems fuel rest2 (v :: acc)
      | ']' :: rest2 => some ((v :: acc).reverse, rest2)
      | _ => none

/-- Parse the members of a non-empty JSON object. -/
def parseMembers : Nat → List Char → Robj → Option (Robj × List Char)
  | 0, _, _ => none
  | fuel + 1, cs, acc =>
    match skipWs cs with
    | '"' :: rest =>
      (match parseStrAux rest [] with
       | none => none
       | some (k, rest2) =>
         match skipWs rest2 with
         | ':' :: rest3 =>
           (match parseVal fuel rest3 with
            | none => none
            | some (v, rest4) =>
              match skipWs rest4 with
              | ',' :: rest5 => parseMembers fuel rest5 (dinsert acc k v)
              | '\x7d' :: rest5 => some (dinsert acc k v, rest5)
              | _ => none)
         | _ => none)
    | _ => none

end

/-- Python `json.loads` on one (stripped) line: parse one value and require
only whitespace after it. -/
def jsonParse (cs : List Char) : Option JValue :=
  match parseVal (2 * cs.length + 4) cs with
  | some (v, rest) => if (skipWs rest).isEmpty then some v else none
  | none => none

/-! ## JSON encoding (Python `json.dumps`, `ensure_ascii=False`) -/

/-- One hex digit. -/
def hexDigit (n : Nat) : Char :=
  if n < 10 then Char.ofNat (48 + n) else Char.ofNat (87 + n)

/-- Escape one character of a JSON string the way `json.dumps` does with
`ensure_ascii=False`: only the quote, the backslash and control characters
are escaped. -/
def escChar (c : Char) : List Char :=
  if c = '"' then ['\\', '"']
  else if c = '\\' then ['\\', '\\']
  else if c = '\n' then ['\\', 'n']
  else if c = '\t' then ['\\', 't']
  else if c = '\r' then ['\\', 'r']
  else if c = '\x08' then ['\\', 'b']
  else if c = '\x0c' then ['\\', 'f']
  else if c.toNat < 32 then
    ['\\', 'u', '0', '0', hexDigit (c.toNat / 16), hexDigit (c.toNat % 16)]
  else [c]

/-- Serialize a JSON string literal. -/
def dumpStr (s : String) : String :=
  "\"" ++ String.mk (s.data.foldr (fun c acc => escChar c ++ acc) []) ++ "\""

/-- Serialize the decimal mantissa/exponent numeral. Integers (exponent 0)
print exactly as Python ints do; the ledger's own writers only ever produce
integers, so the non-integer branch merely has to be injective. -/
def dumpNum (m : Int) (e : Int) : String :=
  if e = 0 then toString m else toString m ++ "e" ++ toString e

mutual

/-- Serialize one JSON value with the given item and key separators
(Python `json.dumps(obj, ensure_ascii=False, separators=(isep, ksep))`). -/
def jdumpVal (isep ksep : String) : JValue → String
  | .null => "null"
  | .bool true => "true"
  | .bool false => "false"
  | .num m e => dumpNum m e
  | .str s => dumpStr s
  | .arr xs => "[" ++ jdumpElems isep ksep xs ++ "]"
  | .obj fs => "\x7b" ++ jdumpFields isep ksep fs ++ "\x7d"

/-- Serialize array elements. -/
def jdumpElems (isep ksep : String) : List JValue → String
  | [] => ""
  | [x] => jdumpVal isep ksep x
  | x :: y :: xs => jdumpVal isep ksep x ++ isep ++ jdumpElems isep ksep (y :: xs)

/-- Serialize object members. -/
def jdumpFields (isep ksep : String) : Robj → String
  | [] => ""
  | [(k, v)] => dumpStr k ++ ksep ++ jdumpVal isep ksep v
  | (k, v) :: f :: fs =>
      dumpStr k ++ ksep ++ jdumpVal isep ksep v ++ isep ++ jdumpFields isep ksep (f :: fs)

end

/-- `memory._safe_json_dumps`: compact separators. -/
def safe_json_dumps (v : JValue) : String :=
  jdumpVal "," ":" v

/-- `json.dumps(record, ensure_ascii=False)` with Python's default
separators, as `case_store.append_record` uses. -/
def default_json_dumps (v : JValue) : String :=
  jdumpVal ", " ": " v

/-! ## Python `datetime` (the fragment `case_store` relies on) -/

/-- A Python `datetime` as produced by `datetime.fromisoformat`: wall-clock
fields plus an optional UTC offset in seconds (`none` means the datetime is
timezone-naive). -/
structure PyDatetime where
  year : Nat
  month : Nat
  day : Nat
  hour : Nat
  minute : Nat
  second : Nat
  usec : Nat
  utcoffset : Option Int
deriving DecidableEq

/-- Python `datetime.min`: midnight on 0001-01-01, timezone-naive. -/
def datetime_min : PyDatetime :=
  ⟨1, 1, 1, 0, 0, 0, 0, none⟩

/-- Gregorian leap year. -/
def isLeap (y : Nat) : Bool :=
  y % 4 = 0 && (y % 100 != 0 || y % 400 = 0)

/-- Days in a month. -/
def daysInMonth (y m : Nat) : Nat :=
  if m = 2 then (if isLeap y then 29 else 28)
  else if m = 4 || m = 6 || m = 9 || m = 11 then 30
  else 31

/-- Days in the year before the first of month `m`. -/
def daysBeforeMonth (y m : Nat) : Nat :=
  (List.range (m - 1)).foldl (fun a i => a + daysInMonth y (i + 1)) 0

/-- Days before January 1 of year `y` (proleptic Gregorian ordinal). -/
def daysBeforeYear (y : Nat) : Nat :=
  365 * (y - 1) + (y - 1) / 4 + (y - 1) / 400 - (y - 1) / 100

/-- Python `datetime.toordinal` plus time of day, in microseconds:
a strictly monotone encoding of naive wall-clock datetimes. -/
def PyDatetime.wallMicros (d : PyDatetime) : Int :=
  ((((((daysBeforeYear d.year + daysBeforeMonth d.year d.month + d.day) * 24
      + d.hour) * 60 + d.minute) * 60 + d.second) * 1000000 + d.usec : Nat) : Int)

/-- The key Python's datetime comparison effectively uses: wall-clock time
for naive datetimes, UTC instant for aware ones.  Two naive or two aware
datetimes compare by this value; a naive/aware pair raises `TypeError`. -/
def PyDatetime.instantMicros (d : PyDatetime) : Int :=
  d.wallMicros - 1000000 * d.utcoffset.getD 0

/-- Whether a datetime is timezone-aware. -/
def PyDatetime.isAware (d : PyDatetime) : Bool :=
  d.utcoffset.isSome

/-! ## `datetime.fromisoformat` -/

/-- Parse exactly `n` decimal digits. -/
def parseDigits : Nat → List Char → Option (Nat × List Char)
  | 0, cs => some (0, cs)
  | n + 1, c :: cs =>
      if digit? c then
        match parseDigits n cs with
        | some (v, rest) => some ((c.toNat - 48) * 10 ^ n + v, rest)
        | none => none
      else none
  | _ + 1, [] => none

/-- Parse the `YYYY-MM-DD` prefix, with `datetime`'s range validation. -/
def parseDatePart (cs : List Char) : Option (Nat × Nat × Nat × List Char) :=
  match parseDigits 4 cs with
  | none => none
  | some (y, rest) =>
    match rest with
    | '-' :: rest2 =>
      (match parseDigits 2 rest2 with
       | none => none
       | some (mo, rest3) =>
         match rest3 with
         | '-' :: rest4 =>
           (match parseDigits 2 rest4 with
            | none => none
            | some (d, rest5) =>
              if 1 ≤ y && 1 ≤ mo && mo ≤ 12 && 1 ≤ d && d ≤ daysInMonth y mo then
                some (y, mo, d, rest5)
              else none)
         | _ => none)
    | _ => none

/-- Parse the `HH[:MM[:SS[.ffffff]]]` clock part, which must consume its
entire input. -/
def parseClock (cs : List Char) : Option (Nat × Nat × Nat × Nat) :=
  match parseDigits 2 cs with
  | none => none
  | some (h, rest) =>
    if h > 23 then none
    else
      match rest with
      | [] => some (h, 0, 0, 0)
      | ':' :: rest2 =>
        (match parseDigits 2 rest2 with
         | none => none
         | some (mi, rest3) =>
           if mi > 59 then none
           else
             match rest3 with
             | [] => some (h, mi, 0, 0)
             | ':' :: rest4 =>
               (match parseDigits 2 rest4 with
                | none => none
                | some (s, rest5) =>
                  if s > 59 then none
                  else
                    match rest5 with
                    | [] => some (h, mi, s, 0)
                    | '.' :: rest6 =>
                      let fds := rest6.takeWhile digit?
                      if rest6.dropWhile digit? = [] && 1 ≤ fds.length && fds.length ≤ 6 then
                        some (h, mi, s, digitsToNat fds * 10 ^ (6 - fds.length))
                      else none
                    | _ => none)
             | _ => none)
      | _ => none

/-- Parse a UTC offset body (sign already consumed): `HH:MM[:SS]`, `HHMM`
or `HH`, in seconds. -/
def parseOffsetBody (cs : List Char) : Option Int :=
  match parseDigits 2 cs with
  | none => none
  | some (h, rest) =>
    if h > 23 then none
    else
      match rest with
      | [] => some (h * 3600)
      | ':' :: rest2 =>
        (match parseDigits 2 rest2 with
         | none => none
         | some (mi, rest3) =>
           if mi > 59 then none
           else
             match rest3 with
             | [] => some (h * 3600 + mi * 60)
             | ':' :: rest4 =>
               (match parseDigits 2 rest4 with
                | none => none
                | some (s, rest5) =>
                  if s ≤ 59 && rest5 = [] then some (h * 3600 + mi * 60 + s) else none)
             | _ => none)
      | _ =>
        match parseDigits 2 rest with
        | some (mi, rest3) => if mi ≤ 59 && rest3 = [] then some (h * 3600 + mi * 60) else none
        | none => none

/-- Split a time-of-day string at its timezone designator, if any:
either a trailing `Z`/`z` (reported with sign `0`) or the first `+`/`-`
(signs `1`/`-1`). Returns the clock part and the offset text. -/
def splitTz (cs : List Char) : List Char × Option (Int × List Char) :=
  match cs with
  | [] => ([], none)
  | c :: rest =>
    if c = '+' then ([], some (1, rest))
    else if c = '-' then ([], some (-1, rest))
    else if (c = 'Z' || c = 'z') && rest = [] then ([], some (0, []))
    else
      let (before, tz) := splitTz rest
      (c :: before, tz)

/-- Python `datetime.fromisoformat` on the profile of ISO-8601 this system
reads and writes: `YYYY-MM-DD`, optionally a one-character separator and
`HH[:MM[:SS[.ffffff]]]`, optionally a UTC offset `±HH:MM[:SS]`/`±HHMM`/`±HH`
or `Z`. Returns `none` where Python raises `ValueError`. -/
def fromisoformat (s : String) : Option PyDatetime :=
  match parseDatePart s.data with
  | none => none
  | some (y, mo, d, rest) =>
    match rest with
    | [] => some ⟨y, mo, d, 0, 0, 0, 0, none⟩
    | _ :: timePart =>
      match splitTz timePart with
      | (clockPart, none) =>
        (match parseClock clockPart with
         | some (h, mi, sec, us) => some ⟨y, mo, d, h, mi, sec, us, none⟩
         | none => none)
      | (clockPart, some (sgn, tzPart)) =>
        match parseClock clockPart with
        | none => none
        | some (h, mi, sec, us) =>
          if sgn = 0 then
            some ⟨y, mo, d, h, mi, sec, us, some 0⟩
          else
            match parseOffsetBody tzPart with
            | some off => some ⟨y, mo, d, h, mi, sec, us, some (sgn * off)⟩
            | none => none

/-- `case_store._parse_iso` applied to `rec.get("created_at")`: `None`,
non-string and falsy (empty-string) inputs parse to `None`, as do strings
`fromisoformat` rejects. -/
def parse_iso : Option JValue → Option PyDatetime
  | some (.str s) => if s = "" then none else fromisoformat s
  | _ => none

/-! ## `case_store.py` -/

/-- Events that must not change case state (`case_store.READ_ONLY_EVENTS`). -/
def READ_ONLY_EVENTS : List String := ["status_check"]

/-- The legacy-creation signature used by `_event_type`'s backward-compat
branch: a routing key, an entities key, and request text or a summary. -/
def legacyCreateShape (rec : Robj) : Bool :=
  hasKey rec "routing" && hasKey rec "entities" &&
    (hasKey rec "request_text" || hasKey rec "summary")

/-- `case_store._event_type`: the trimmed `event_type` when it is a string
with non-whitespace content, else `case_created` for legacy creation packets,
else `unknown`. -/
def event_type (rec : Robj) : String :=
  let fallback := if legacyCreateShape rec then "case_created" else "unknown"
  match dget rec "event_type" with
  | some (.str s) => if pyStrip s = "" then fallback else pyStrip s
  | _ => fallback

/-- `case_store.load_records` on a list of raw lines: strip each line, skip
blank lines, parse JSON, and skip (rather than fail on) lines that do not
parse. -/
def load_records_lines (lines : List (List Char)) : List JValue :=
  lines.foldl
    (fun out line =>
      let l := stripChars line
      if l.isEmpty then out
      else
        match jsonParse l with
        | some v => out ++ [v]
        | none => out)
    []

/-- `case_store.load_records` on the ledger file's contents. -/
def load_records (content : String) : List JValue :=
  load_records_lines (splitNl content.data)

/-- The filter `r.get("case_id") == case_id` (Python equality between an
arbitrary JSON value and the query string). -/
def matchesCase (cid : String) (r : Robj) : Bool :=
  match dget r "case_id" with
  | some (.str s) => s = cid
  | _ => false

/-- Python `r.get(...)` on a non-dict record raises `AttributeError`. -/
def asObj : JValue → Except PyErr Robj
  | .obj fs => .ok fs
  | _ => .error .attributeError

/-- The sort key `_parse_iso(r.get("created_at")) or datetime.min`. -/
def sort_key (r : Robj) : PyDatetime :=
  (parse_iso (dget r "created_at")).getD datetime_min

/-- The comparison Python's stable sort applies to the keys (valid only
between two naive or two aware keys). -/
def recLE (a b : Robj) : Prop :=
  (sort_key a).instantMicros ≤ (sort_key b).instantMicros

instance : DecidableRel recLE :=
  fun a b => Int.decLe (sort_key a).instantMicros (sort_key b).instantMicros

/-- Whether the key list mixes an aware and a naive datetime.  Comparing any
such pair raises `TypeError`, and a comparison sort of a list containing both
kinds must compare some such pair (directly ordering every naive/aware pair
through intermediate elements is impossible: some adjacent comparison in any
ordering chain crosses the kinds), so Python's `list.sort` raises exactly
when the keys are mixed. -/
def mixedAwareness (rs : List Robj) : Bool :=
  (rs.any fun r => (sort_key r).isAware) && (rs.any fun r => !(sort_key r).isAware)

/-- `case_store._records_for_case` over already-loaded records: filter to the
case id, then sort stably by parsed `created_at` with `datetime.min` standing
in for missing or unparsable timestamps; `TypeError` on mixed keys. -/
def records_for_case_list (recs : List JValue) (cid : String) : Except PyErr (List Robj) := do
  let objs ← recs.mapM asObj
  let filtered := objs.filter (matchesCase cid)
  if mixedAwareness filtered then .error .typeError
  else .ok (filtered.insertionSort recLE)

/-- `case_store._records_for_case` from the ledger file's contents. -/
def records_for_case (content : String) (cid : String) : Except PyErr (List Robj) :=
  records_for_case_list (load_records content) cid

/-- `case_store.case_exists` over already-loaded records. -/
def case_exists_list (recs : List JValue) (cid : String) : Except PyErr Bool := do
  let records ← records_for_case_list recs cid
  .ok (records.reverse.any fun rec => event_type rec == "case_created")

/-- `case_store.case_exists` from the ledger file's contents. -/
def case_exists (content : String) (cid : String) : Except PyErr Bool :=
  case_exists_list (load_records content) cid

/-- Python `dict(x or \x7b\x7d)` on a JSON value: falsy and absent inputs
give an empty dict, a dict input is copied; coercion failures on truthy
non-dict inputs (Python raises `TypeError`/`ValueError`; a list of pairs,
which no ledger writer produces, is not modelled) are collapsed to
`typeError`. -/
def pyDictArg : Option JValue → Except PyErr Robj
  | none => .ok []
  | some x =>
    if pyFalsy x then .ok []
    else
      match x with
      | .obj fs => .ok fs
      | _ => .error .typeError

/-- Python `list(x or [])` on a JSON value: falsy and absent inputs give
`[]`; lists copy; strings yield their characters; dicts yield their keys;
numbers and `True` raise `TypeError`. -/
def pyListArg : Option JValue → Except PyErr (List JValue)
  | none => .ok []
  | some x =>
    if pyFalsy x then .ok []
    else
      match x with
      | .arr xs => .ok xs
      | .str s => .ok (s.data.map fun c => .str (String.mk [c]))
      | .obj fs => .ok (fs.map fun p => .str p.1)
      | _ => .error .typeError

/-- Python `(x or \x7b\x7d).items()`: falsy and absent inputs iterate as
empty; a truthy non-dict raises `AttributeError`. -/
def pyItemsArg : Option JValue → Except PyErr Robj
  | none => .ok []
  | some x =>
    if pyFalsy x then .ok []
    else
      match x with
      | .obj fs => .ok fs
      | _ => .error .attributeError

/-- The state dict the `case_created` branch of `get_case_state` builds. -/
def mk_created_state (rec : Robj) : Except PyErr Robj := do
  let ents ← pyDictArg (dget rec "entities")
  let miss ← pyListArg (dget rec "missing_info")
  .ok [("case_id", dgetD rec "case_id"),
       ("case_type", dgetD rec "case_type"),
       ("created_at", dgetD rec "created_at"),
       ("priority", dgetD rec "priority"),
       ("sla_days", dgetD rec "sla_days"),
       ("routing", dgetD rec "routing"),
       ("entities", .obj ents),
       ("missing_info", .arr miss),
       ("last_updated_at", dgetD rec "created_at"),
       ("last_event_type", .str "case_created")]

/-- Python `state.setdefault("entities", \x7b\x7d)`. -/
def setdefaultEntities (state : Robj) : Robj :=
  if hasKey state "entities" then state else dinsert state "entities" (.obj [])

/-- The update loop `for k, v in updates.items(): if v is not None:
state["entities"][k] = v`, acting on the current `entities` value; item
assignment on a non-dict raises `TypeError`. -/
def applyAssignments (entsVal : JValue) (upd : Robj) : Except PyErr JValue :=
  upd.foldlM
    (fun ev kv =>
      match kv.2 with
      | .null => .ok ev
      | v =>
        match ev with
        | .obj fs => .ok (.obj (dinsert fs kv.1 v))
        | _ => .error .typeError)
    entsVal

/-- The `follow_up` branch of `get_case_state`'s fold. -/
def apply_follow_up (state : Robj) (rec : Robj) : Except PyErr Robj := do
  let upd ← pyItemsArg (dget rec "entities_update")
  let state := setdefaultEntities state
  let ev ← applyAssignments (dgetD state "entities") upd
  let state := dinsert state "entities" ev
  let state ←
    if hasKey rec "missing_info_after" then do
      let ml ← pyListArg (dget rec "missing_info_after")
      pure (dinsert state "missing_info" (.arr ml))
    else pure state
  let state := dinsert state "last_updated_at" (dgetD rec "created_at")
  .ok (dinsert state "last_event_type" (.str "follow_up"))

/-- One iteration of `get_case_state`'s replay loop, on the pair of the
working state and the `saw_create` flag. -/
def apply_event (st : Robj × Bool) (rec : Robj) : Except PyErr (Robj × Bool) :=
  let et := event_type rec
  if READ_ONLY_EVENTS.contains et || et = "unknown" then .ok st
  else if et = "case_created" then do
    let s ← mk_created_state rec
    .ok (s, true)
  else if et = "follow_up" && !st.2 then .ok st
  else if et = "follow_up" then do
    let s ← apply_follow_up st.1 rec
    .ok (s, st.2)
  else .ok st

/-- The whole replay loop. -/
def fold_events : List Robj → Robj × Bool → Except PyErr (Robj × Bool)
  | [], st => .ok st
  | r :: rs, st =>
    match apply_event st r with
    | .ok st' => fold_events rs st'
    | .error e => .error e

/-- `case_store.get_case_state` over already-loaded records. -/
def get_case_state_list (recs : List JValue) (cid : String) : Except PyErr (Option Robj) := do
  let records ← records_for_case_list recs cid
  if records.isEmpty then .ok none
  else do
    let (state, _) ← fold_events records ([], false)
    .ok (if state.isEmpty then none else some state)

/-- `case_store.get_case_state` from the ledger file's contents. -/
def get_case_state (content : String) (cid : String) : Except PyErr (Option Robj) :=
  get_case_state_list (load_records content) cid

/-- `case_store.append_record`: serialize with `json.dumps`'s default
separators and append one line — no validation at all. -/
def append_record (record : JValue) (content : String) : String :=
  content ++ default_json_dumps record ++ "\n"

/-! ## `memory.py` -/

/-- `memory.append_case`: reject non-dict payloads and payloads whose
`case_id` is not a string with non-whitespace content, before any write;
otherwise append exactly one compactly serialized line. -/
def append_case (case_packet : JValue) (content : String) : String :=
  match case_packet with
  | .obj fields =>
    (match dget fields "case_id" with
     | some (.str s) =>
       if pyStrip s = "" then content
       else content ++ safe_json_dumps (.obj fields) ++ "\n"
     | _ => content)
  | _ => content

/-! ## Supporting definitions for the statements -/

/-- Python `v is None` on a JSON value. -/
def JValue.isNull : JValue → Bool
  | .null => true
  | _ => false

/-- The entity-merge loop of the `follow_up` branch as a pure map transform:
starting from the working entity map, write each update whose value is
non-null, in update order. -/
def mergeUpdates (ents upd : Robj) : Robj :=
  upd.foldl
    (fun e kv =>
      match kv.2 with
      | .null => e
      | v => dinsert e kv.1 v)
    ents

/-- The per-key merge the specification describes: the last non-null update
for the key wins; keys with no non-null update keep their previous value. -/
def specMergedValue (ents upd : Robj) (k : String) : Option JValue :=
  match upd.reverse.find? (fun p => p.1 == k && !p.2.isNull) with
  | some p => some p.2
  | none => dget ents k

/-- A ledger-record list together with a second one obtained from it by
inserting, at arbitrary positions, records that resolve to `status_check`. -/
inductive StatusPadded : List JValue → List JValue → Prop
  | nil : StatusPadded [] []
  | keep (v : JValue) {l l' : List JValue} :
      StatusPadded l l' → StatusPadded (v :: l) (v :: l')
  | pad (fs : Robj) {l l' : List JValue} :
      event_type fs = "status_check" →
      StatusPadded l l' → StatusPadded l (JValue.obj fs :: l')

/-- The same relation on already-decoded record lists. -/
inductive SPadded : List Robj → List Robj → Prop
  | nil : SPadded [] []
  | keep (r : Robj) {l l' : List Robj} :
      SPadded l l' → SPadded (r :: l) (r :: l')
  | pad (r : Robj) {l l' : List Robj} :
      event_type r = "status_check" →
      SPadded l l' → SPadded l (r :: l')

/-- The record filter that drops exactly the `status_check` events. -/
def notStatus (r : Robj) : Bool :=
  !(event_type r == "status_check")

/-- The record predicate marking non-`case_created` events (the prefix a
sorted history can discard). -/
def notCreate (r : Robj) : Bool :=
  !(event_type r == "case_created")

/-! ## Concrete ledgers used by the claim instances -/

/-- A creation event with a timezone-naive timestamp. -/
def demoCreateFields : Robj :=
  [("case_id", .str "CASE-1"), ("event_type", .str "case_created"),
    ("created_at", .str "2025-01-01T10:00:00"),
    ("entities", .obj [("a", .str "1"), ("b", .null)]),
    ("missing_info", .arr [.str "x", .str "y"])]

/-- The record as a JSON value. -/
def demoCreate : JValue := .obj demoCreateFields

/-- A follow-up one hour later, with a null update on `a`. -/
def demoFollowUpFields : Robj :=
  [("case_id", .str "CASE-1"), ("event_type", .str "follow_up"),
    ("created_at", .str "2025-01-01T11:00:00"),
    ("entities_update", .obj [("a", .null), ("b", .str "2"), ("c", .str "3")]),
    ("missing_info_after", .arr [.str "y"])]

/-- The record as a JSON value. -/
def demoFollowUp : JValue := .obj demoFollowUpFields

/-- Ledger with creation physically first. -/
def contentFwd : String := append_case demoFollowUp (append_case demoCreate "")

/-- The same two events appended in the opposite physical order. -/
def contentRev : String := append_case demoCreate (append_case demoFollowUp "")

/-- The state both ledgers project for CASE-1. -/
def demoStateFwd : Robj :=
  [("case_id", .str "CASE-1"), ("case_type", .null),
   ("created_at", .str "2025-01-01T10:00:00"), ("priority", .null),
   ("sla_days", .null), ("routing", .null),
   ("entities", .obj [("a", .str "1"), ("b", .str "2"), ("c", .str "3")]),
   ("missing_info", .arr [.str "y"]),
   ("last_updated_at", .str "2025-01-01T11:00:00"),
   ("last_event_type", .str "follow_up")]

/-- The state `contentBase` (creation only) projects for CASE-1. -/
def demoStateBase : Robj :=
  [("case_id", .str "CASE-1"), ("case_type", .null),
   ("created_at", .str "2025-01-01T10:00:00"), ("priority", .null),
   ("sla_days", .null), ("routing", .null),
   ("entities", .obj [("a", .str "1"), ("b", .null)]),
   ("missing_info", .arr [.str "x", .str "y"]),
   ("last_updated_at", .str "2025-01-01T10:00:00"),
   ("last_event_type", .str "case_created")]

/-- A creation event carrying a timezone-aware timestamp, as `executor.py`
writes them (`datetime.now().astimezone().isoformat()`). -/
def demoCreateAwareFields : Robj :=
  [("case_id", .str "CASE-2"), ("event_type", .str "case_created"),
    ("created_at", .str "2025-01-01T10:00:00+00:00"),
    ("entities", .obj []), ("missing_info", .arr [])]

/-- The record as a JSON value. -/
def demoCreateAware : JValue := .obj demoCreateAwareFields

/-- A follow-up for the same case with no `created_at` at all. -/
def demoNoTsFields : Robj :=
  [("case_id", .str "CASE-2"), ("event_type", .str "follow_up"),
    ("entities_update", .obj [("a", .str "1")])]

/-- The record as a JSON value. -/
def demoNoTs : JValue := .obj demoNoTsFields

/-- A ledger whose sort keys mix an aware timestamp with the naive
`datetime.min` fallback. -/
def contentMixed : String := append_case demoNoTs (append_case demoCreateAware "")

/-- Single-creation ledger. -/
def contentBase : String := append_case demoCreate ""

/-- The same ledger with a `status_check` record appended whose timestamp is
timezone-aware while the creation's is naive. -/
def demoStatusAwareFields : Robj :=
  [("case_id", .str "CASE-1"), ("event_type", .str "status_check"),
    ("created_at", .str "2025-01-01T10:30:00+00:00")]

/-- The record as a JSON value. -/
def demoStatusAware : JValue := .obj demoStatusAwareFields

/-- `contentBase` with the aware status check inserted. -/
def contentPadded : String := append_case demoStatusAware contentBase

/-- A ledger with a corrupted line between two valid ones. -/
def contentCorrupt : String :=
  append_case demoCreate "" ++ "\x7bnot json!!\n" ++ append_case demoFollowUp ""

/-- A follow-up with a timezone-aware timestamp later (by wall clock) than
`demoCreate`'s naive one. -/
def demoFollowUpAwareFields : Robj :=
  [("case_id", .str "CASE-1"), ("event_type", .str "follow_up"),
    ("created_at", .str "2025-01-01T11:00:00+00:00"),
    ("entities_update", .obj [("b", .str "2")])]

/-- The record as a JSON value. -/
def demoFollowUpAware : JValue := .obj demoFollowUpAwareFields

/-- Ledger where that follow-up is physically appended before the creation. -/
def contentMix2 : String := append_case demoCreate (append_case demoFollowUpAware "")

/-- A follow-up whose timestamp sorts before the creation's. -/
def demoFuEarlyFields : Robj :=
  [("case_id", .str "CASE-1"), ("event_type", .str "follow_up"),
    ("created_at", .str "2025-01-01T09:00:00"),
    ("entities_update", .obj [("z", .str "9")])]

/-- The record as a JSON value. -/
def demoFuEarly : JValue := .obj demoFuEarlyFields

/-- Ledger holding the creation and the logically-earlier follow-up. -/
def contentEarlyFu : String := append_case demoCreate (append_case demoFuEarly "")

/-- A status check with a naive timestamp (sorts fine with `demoCreate`). -/
def demoStatusNaiveFields : Robj :=
  [("case_id", .str "CASE-1"), ("event_type", .str "status_check"),
    ("created_at", .str "2025-01-01T10:30:00")]

/-- The record as a JSON value. -/
def demoStatusNaive : JValue := .obj demoStatusNaiveFields

/-- Two follow-ups for one case, both with no timestamp at all, so both
receive the `datetime.min` sort key. -/
def demoNoTs2Fields : Robj :=
  [("case_id", .str "CASE-2"), ("event_type", .str "follow_up"),
    ("entities_update", .obj [("b", .str "2")])]

/-- The record as a JSON value. -/
def demoNoTs2 : JValue := .obj demoNoTs2Fields

/-- A record whose `event_type` is a non-empty but all-whitespace string and
which carries the legacy creation signature. -/
def blankEtRec : Robj :=
  [("event_type", .str " "), ("routing", .null), ("entities", .null),
   ("summary", .null)]

/-- An append payload with no `case_id` key. -/
def noIdPayload : JValue := .obj [("foo", .num 1 0)]

/-- The per-record selector the case filter composes with decoding: the
field list of an object record matching the case id, and nothing for other
values. -/
def caseFields (cid : String) (v : JValue) : Option Robj :=
  match v with
  | .obj fs => if matchesCase cid fs then some fs else none
  | _ => none

/-! ## Dictionary lemmas -/

theorem dget_dinsert_self (d : Robj) (k : String) (v : JValue) :
    dget (dinsert d k v) k = some v := by
  induction d with
  | nil => simp [dinsert, dget]
  | cons p rest ih =>
    obtain ⟨k', v'⟩ := p
    by_cases h : k' = k
    · simp [dinsert, dget, h]
    · simp [dinsert, dget, h, ih]

theorem dget_dinsert_ne (d : Robj) {k' k : String} (v : JValue) (h : k' ≠ k) :
    dget (dinsert d k' v) k = dget d k := by
  induction d with
  | nil => simp [dinsert, dget, h]
  | cons p rest ih =>
    obtain ⟨k0, v0⟩ := p
    by_cases h0 : k0 = k'
    · simp [dinsert, dget, h0, h]
    · by_cases h1 : k0 = k <;> simp [dinsert, dget, h0, h1, ih, Ne.symm h]

theorem dinsert_ne_nil (d : Robj) (k : String) (v : JValue) :
    dinsert d k v ≠ [] := by
  cases d with
  | nil => simp [dinsert]
  | cons p rest =>
    obtain ⟨k0, v0⟩ := p
    by_cases h : k0 = k <;> simp [dinsert, h]

/-! ## Replay-loop lemmas -/

theorem apply_event_status (st : Robj × Bool) (rec : Robj)
    (h : event_type rec = "status_check") :
    apply_event st rec = .ok st := by
  unfold apply_event
  dsimp only
  rw [if_pos]
  simp [READ_ONLY_EVENTS, h]

theorem apply_event_nc (s : Robj) (rec : Robj)
    (hc : event_type rec ≠ "case_created") :
    apply_event (s, false) rec = .ok (s, false) := by
  unfold apply_event
  dsimp only
  by_cases h1 : (READ_ONLY_EVENTS.contains (event_type rec)
      || decide (event_type rec = "unknown")) = true
  · rw [if_pos h1]
  · rw [if_neg h1, if_neg hc]
    by_cases h3 : (decide (event_type rec = "follow_up") && !false) = true
    · rw [if_pos h3]
    · have hf : ¬ event_type rec = "follow_up" := fun hf => h3 (by simp [hf])
      rw [if_neg h3, if_neg hf]

theorem apply_event_create (s : Robj) (b : Bool) (rec : Robj)
    (hc : event_type rec = "case_created") :
    apply_event (s, b) rec =
      match mk_created_state rec with
      | .ok s0 => .ok (s0, true)
      | .error e => .error e := by
  unfold apply_event
  dsimp only
  rw [if_neg, if_pos hc]
  · cases mk_created_state rec <;> simp [Bind.bind, Except.bind]
  · simp [READ_ONLY_EVENTS, hc]

theorem apply_event_followup (s : Robj) (rec : Robj)
    (hf : event_type rec = "follow_up") :
    apply_event (s, true) rec =
      match apply_follow_up s rec with
      | .ok s' => .ok (s', true)
      | .error e => .error e := by
  unfold apply_event
  dsimp only
  rw [if_neg, if_neg, if_neg, if_pos hf]
  · cases apply_follow_up s rec <;> simp [Bind.bind, Except.bind]
  · simp [hf]
  · simp [hf]
  · simp [READ_ONLY_EVENTS, hf]

theorem fold_events_skip_prefix (l1 l2 : List Robj) (s : Robj)
    (h : ∀ r ∈ l1, event_type r ≠ "case_created") :
    fold_events (l1 ++ l2) (s, false) = fold_events l2 (s, false) := by
  induction l1 with
  | nil => rfl
  | cons r rs ih =>
    have hr := h r (List.mem_cons_self r rs)
    simp only [List.cons_append, fold_events, apply_event_nc s r hr]
    exact ih (fun x hx => h x (List.mem_cons_of_mem r hx))

theorem fold_events_dropWhile (l : List Robj) :
    fold_events l ([], false) = fold_events (l.dropWhile notCreate) ([], false) := by
  conv_lhs => rw [← List.takeWhile_append_dropWhile notCreate l]
  refine fold_events_skip_prefix _ _ _ (fun r hr => ?_)
  have hp := List.mem_takeWhile_imp hr
  simpa [notCreate] using hp

theorem fold_events_filter_status (l : List Robj) (st : Robj × Bool) :
    fold_events l st = fold_events (l.filter notStatus) st := by
  induction l generalizing st with
  | nil => rfl
  | cons r rs ih =>
    by_cases h : event_type r = "status_check"
    · rw [List.filter_cons_of_neg (by simp [notStatus, h])]
      simp only [fold_events, apply_event_status st r h]
      exact ih st
    · rw [List.filter_cons_of_pos (by simp [notStatus, h])]
      simp only [fold_events]
      cases happ : apply_event st r with
      | ok st1 => exact ih st1
      | error e => rfl

theorem mk_created_state_ne_nil {rec : Robj} {st : Robj}
    (h : mk_created_state rec = .ok st) : st ≠ [] := by
  unfold mk_created_state at h
  cases h1 : pyDictArg (dget rec "entities") with
  | error e => rw [h1] at h; simp [Bind.bind, Except.bind] at h
  | ok ents =>
    cases h2 : pyListArg (dget rec "missing_info") with
    | error e => rw [h1, h2] at h; simp [Bind.bind, Except.bind] at h
    | ok miss =>
      rw [h1, h2] at h
      simp only [Bind.bind, Except.bind, Except.ok.injEq] at h
      rw [← h]
      simp

theorem apply_follow_up_shape {s rec : Robj} {s' : Robj}
    (h : apply_follow_up s rec = .ok s') :
    ∃ t : Robj, s' = dinsert t "last_event_type" (.str "follow_up") := by
  unfold apply_follow_up at h
  cases h1 : pyItemsArg (dget rec "entities_update") with
  | error e => rw [h1] at h; simp [Bind.bind, Except.bind] at h
  | ok upd =>
    rw [h1] at h
    simp only [Bind.bind, Except.bind] at h
    cases h2 : applyAssignments (dgetD (setdefaultEntities s) "entities") upd with
    | error e => rw [h2] at h; simp at h
    | ok ev =>
      rw [h2] at h
      dsimp only at h
      by_cases h3 : hasKey rec "missing_info_after" = true
      · rw [if_pos h3] at h
        cases h4 : pyListArg (dget rec "missing_info_after") with
        | error e => rw [h4] at h; simp [Pure.pure, Except.pure] at h
        | ok ml =>
          rw [h4] at h
          simp only [Pure.pure, Except.pure, Except.ok.injEq] at h
          exact ⟨_, h.symm⟩
      · rw [if_neg h3] at h
        simp only [Pure.pure, Except.pure, Except.ok.injEq] at h
        exact ⟨_, h.symm⟩

theorem apply_follow_up_ne_nil {s rec : Robj} {s' : Robj}
    (h : apply_follow_up s rec = .ok s') : s' ≠ [] := by
  obtain ⟨t, rfl⟩ := apply_follow_up_shape h
  exact dinsert_ne_nil t _ _

theorem apply_event_preserve {s : Robj} {rec : Robj} {st' : Robj × Bool}
    (hs : s ≠ []) (h : apply_event (s, true) rec = .ok st') :
    st'.1 ≠ [] ∧ st'.2 = true := by
  by_cases hc : event_type rec = "case_created"
  · rw [apply_event_create s true rec hc] at h
    cases hm : mk_created_state rec with
    | error e => rw [hm] at h; simp at h
    | ok s0 =>
      rw [hm] at h
      dsimp only at h
      obtain rfl := (Except.ok.inj h).symm
      exact ⟨mk_created_state_ne_nil hm, rfl⟩
  · by_cases hf : event_type rec = "follow_up"
    · rw [apply_event_followup s rec hf] at h
      cases ha : apply_follow_up s rec with
      | error e => rw [ha] at h; simp at h
      | ok s1 =>
        rw [ha] at h
        dsimp only at h
        obtain rfl := (Except.ok.inj h).symm
        exact ⟨apply_follow_up_ne_nil ha, rfl⟩
    · have hskip : apply_event (s, true) rec = .ok (s, true) := by
        unfold apply_event
        dsimp only
        by_cases h1 : (READ_ONLY_EVENTS.contains (event_type rec)
            || decide (event_type rec = "unknown")) = true
        · rw [if_pos h1]
        · rw [if_neg h1, if_neg hc, if_neg (by simp), if_neg hf]
      rw [hskip] at h
      obtain rfl := (Except.ok.inj h).symm
      exact ⟨hs, rfl⟩

theorem fold_events_preserve (l : List Robj) :
    ∀ (s : Robj) (st' : Robj × Bool), s ≠ [] →
      fold_events l (s, true) = .ok st' → st'.1 ≠ [] ∧ st'.2 = true := by
  induction l with
  | nil =>
    intro s st' hs h
    obtain rfl := (Except.ok.inj h).symm
    exact ⟨hs, rfl⟩
  | cons r rs ih =>
    intro s st' hs h
    simp only [fold_events] at h
    cases happ : apply_event (s, true) r with
    | error e => rw [happ] at h; simp at h
    | ok st1 =>
      rw [happ] at h
      obtain ⟨h1, h2⟩ := apply_event_preserve hs happ
      obtain ⟨s1, b1⟩ := st1
      dsimp only at h1 h2
      subst h2
      exact ih s1 st' h1 h

theorem fold_events_create_char (l : List Robj) :
    ∀ {s : Robj} {saw : Bool}, fold_events l ([], false) = .ok (s, saw) →
      ((∃ r ∈ l, event_type r = "case_created") ↔ saw = true) ∧ (s = [] ↔ saw = false) := by
  induction l with
  | nil =>
    intro s saw h
    have h' := Except.ok.inj h
    rw [Prod.mk.injEq] at h'
    obtain ⟨rfl, rfl⟩ := h'
    simp
  | cons r rs ih =>
    intro s saw h
    by_cases hc : event_type r = "case_created"
    · simp only [fold_events] at h
      rw [apply_event_create _ _ _ hc] at h
      cases hm : mk_created_state r with
      | error e => rw [hm] at h; dsimp only at h; simp at h
      | ok s0 =>
        rw [hm] at h
        dsimp only at h
        obtain ⟨h1, h2⟩ := fold_events_preserve rs s0 (s, saw) (mk_created_state_ne_nil hm) h
        dsimp only at h1 h2
        subst h2
        refine ⟨⟨fun _ => rfl, fun _ => ⟨r, List.mem_cons_self r rs, hc⟩⟩, ?_⟩
        simp [h1]
    · simp only [fold_events, apply_event_nc _ _ hc] at h
      obtain ⟨ih1, ih2⟩ := ih h
      refine ⟨?_, ih2⟩
      rw [← ih1]
      constructor
      · rintro ⟨x, hx, hex⟩
        rcases List.mem_cons.mp hx with rfl | hx'
        · exact absurd hex hc
        · exact ⟨x, hx', hex⟩
      · rintro ⟨x, hx, hex⟩
        exact ⟨x, List.mem_cons_of_mem r hx, hex⟩

theorem fold_events_error_create (l : List Robj) :
    ∀ e : PyErr, fold_events l ([], false) = .error e →
      ∃ r ∈ l, event_type r = "case_created" := by
  induction l with
  | nil => intro e h; simp [fold_events] at h
  | cons r rs ih =>
    intro e h
    by_cases hc : event_type r = "case_created"
    · exact ⟨r, List.mem_cons_self r rs, hc⟩
    · simp only [fold_events, apply_event_nc _ _ hc] at h
      obtain ⟨x, hx, hex⟩ := ih e h
      exact ⟨x, List.mem_cons_of_mem r hx, hex⟩

/-! ## Sorting lemmas -/

instance : IsTotal Robj recLE :=
  ⟨fun a b => Int.le_total (sort_key a).instantMicros (sort_key b).instantMicros⟩

instance : IsTrans Robj recLE :=
  ⟨fun _ _ _ hab hbc => Int.le_trans hab hbc⟩

theorem filter_orderedInsert (p : Robj → Bool) (a : Robj) :
    ∀ s : List Robj, s.Sorted recLE →
      (s.orderedInsert recLE a).filter p =
        if p a then (s.filter p).orderedInsert recLE a else s.filter p := by
  intro s
  induction s with
  | nil =>
    intro _
    by_cases hpa : p a <;>
      simp [List.orderedInsert, List.filter, hpa]
  | cons b s ih =>
    intro hs
    by_cases hab : recLE a b
    · rw [List.orderedInsert_of_le recLE _ hab]
      by_cases hpa : p a
      · rw [List.filter_cons_of_pos hpa, if_pos hpa]
        cases hf : (b :: s).filter p with
        | nil => simp [List.orderedInsert]
        | cons c cs =>
          have hc : c ∈ (b :: s).filter p := by rw [hf]; exact List.mem_cons_self c cs
          have hcmem : c ∈ b :: s := List.mem_of_mem_filter hc
          have hac : recLE a c := by
            rcases List.mem_cons.mp hcmem with rfl | hcs
            · exact hab
            · exact Trans.trans hab (List.rel_of_sorted_cons hs c hcs)
          rw [List.orderedInsert_of_le recLE _ hac]
      · rw [List.filter_cons_of_neg hpa, if_neg hpa]
    · rw [List.orderedInsert, if_neg hab]
      have ihs := ih hs.of_cons
      by_cases hpb : p b
      · rw [List.filter_cons_of_pos hpb, List.filter_cons_of_pos hpb, ihs]
        by_cases hpa : p a
        · rw [if_pos hpa, if_pos hpa, List.orderedInsert, if_neg hab]
        · rw [if_neg hpa, if_neg hpa]
      · rw [List.filter_cons_of_neg hpb, List.filter_cons_of_neg hpb, ihs]

theorem filter_insertionSort (p : Robj → Bool) (l : List Robj) :
    (l.insertionSort recLE).filter p = (l.filter p).insertionSort recLE := by
  induction l with
  | nil => rfl
  | cons a l ih =>
    rw [List.insertionSort,
      filter_orderedInsert p a _ (List.sorted_insertionSort recLE l)]
    by_cases hpa : p a
    · rw [if_pos hpa, List.filter_cons_of_pos hpa, List.insertionSort, ih]
    · rw [if_neg hpa, List.filter_cons_of_neg hpa, ih]

/-! ## Decoding and padding lemmas -/

theorem asObj_ok {v : JValue} {fs : Robj} (h : asObj v = .ok fs) : v = .obj fs := by
  cases v <;> simp_all [asObj]

theorem mapM_asObj_eq : ∀ {recs : List JValue} {objs : List Robj},
    recs.mapM asObj = .ok objs → recs = objs.map JValue.obj := by
  intro recs
  induction recs with
  | nil =>
    intro objs h
    simp only [List.mapM_nil, pure, Except.pure, Except.ok.injEq] at h
    rw [← h]
    rfl
  | cons v vs ih =>
    intro objs h
    rw [List.mapM_cons] at h
    cases hv : asObj v with
    | error e => rw [hv] at h; simp [Bind.bind, Except.bind] at h
    | ok fs =>
      rw [hv] at h
      cases hm : vs.mapM asObj with
      | error e => rw [hm] at h; simp [Bind.bind, Except.bind] at h
      | ok rest =>
        rw [hm] at h
        simp only [Bind.bind, Except.bind, Pure.pure, Except.pure, Except.ok.injEq] at h
        rw [← h, List.map_cons, asObj_ok hv, ih hm]

theorem spadded_mapM {recs recs' : List JValue} (hsp : StatusPadded recs recs') :
    ∀ {objs' : List Robj}, recs'.mapM asObj = .ok objs' →
      ∃ objs : List Robj, recs.mapM asObj = .ok objs ∧ SPadded objs objs' := by
  induction hsp with
  | nil =>
    intro objs' h
    simp only [List.mapM_nil, pure, Except.pure, Except.ok.injEq] at h
    exact ⟨[], rfl, h ▸ SPadded.nil⟩
  | keep v hsp ih =>
    rename_i l l'
    intro objs' h
    rw [List.mapM_cons] at h
    cases hv : asObj v with
    | error e => rw [hv] at h; simp [Bind.bind, Except.bind] at h
    | ok fs =>
      rw [hv] at h
      cases hm : l'.mapM asObj with
      | error e => rw [hm] at h; simp [Bind.bind, Except.bind] at h
      | ok rest' =>
        rw [hm] at h
        simp only [Bind.bind, Except.bind, Pure.pure, Except.pure, Except.ok.injEq] at h
        obtain ⟨objs, hmo, hpo⟩ := ih hm
        refine ⟨fs :: objs, ?_, h ▸ SPadded.keep fs hpo⟩
        rw [List.mapM_cons, hv, hmo]
        rfl
  | pad fs het hsp ih =>
    rename_i l l'
    intro objs' h
    rw [List.mapM_cons] at h
    have hv : asObj (JValue.obj fs) = .ok fs := rfl
    rw [hv] at h
    cases hm : l'.mapM asObj with
    | error e => rw [hm] at h; simp [Bind.bind, Except.bind] at h
    | ok rest' =>
      rw [hm] at h
      simp only [Bind.bind, Except.bind, Pure.pure, Except.pure, Except.ok.injEq] at h
      obtain ⟨objs, hmo, hpo⟩ := ih hm
      exact ⟨objs, hmo, h ▸ SPadded.pad fs het hpo⟩

theorem SPadded.filter (p : Robj → Bool) {l l' : List Robj} (h : SPadded l l') :
    SPadded (l.filter p) (l'.filter p) := by
  induction h with
  | nil => exact .nil
  | keep r h ih =>
    by_cases hp : p r = true
    · rw [List.filter_cons_of_pos hp, List.filter_cons_of_pos hp]
      exact .keep r ih
    · rw [List.filter_cons_of_neg (by simpa using hp),
        List.filter_cons_of_neg (by simpa using hp)]
      exact ih
  | pad r het h ih =>
    by_cases hp : p r = true
    · rw [List.filter_cons_of_pos hp]
      exact .pad r het ih
    · rw [List.filter_cons_of_neg (by simpa using hp)]
      exact ih

theorem SPadded.sublist {l l' : List Robj} (h : SPadded l l') : List.Sublist l l' := by
  induction h with
  | nil => exact List.Sublist.refl []
  | keep r h ih => exact ih.cons₂ r
  | pad r het h ih => exact ih.cons r

theorem SPadded.filter_notStatusEq {l l' : List Robj} (h : SPadded l l') :
    l'.filter notStatus = l.filter notStatus := by
  induction h with
  | nil => rfl
  | keep r h ih => rw [List.filter_cons, List.filter_cons, ih]
  | pad r het h ih =>
    rw [List.filter_cons_of_neg (by simp [notStatus, het])]
    exact ih

theorem mixed_of_sublist {l l' : List Robj} (h : List.Sublist l l')
    (hm : mixedAwareness l' = false) : mixedAwareness l = false := by
  cases hA : (l.any fun r => (sort_key r).isAware) with
  | false => simp [mixedAwareness, hA]
  | true =>
    cases hB : (l.any fun r => !(sort_key r).isAware) with
    | false => simp [mixedAwareness, hA, hB]
    | true =>
      exfalso
      obtain ⟨x, hx, hxa⟩ := List.any_eq_true.mp hA
      obtain ⟨y, hy, hya⟩ := List.any_eq_true.mp hB
      have h1 : (l'.any fun r => (sort_key r).isAware) = true :=
        List.any_eq_true.mpr ⟨x, h.subset hx, hxa⟩
      have h2 : (l'.any fun r => !(sort_key r).isAware) = true :=
        List.any_eq_true.mpr ⟨y, h.subset hy, hya⟩
      rw [mixedAwareness, h1, h2] at hm
      simp at hm

/-! ## Merge lemmas for the follow-up entity update -/

theorem applyAssignments_obj (upd : Robj) :
    ∀ ents : Robj, applyAssignments (.obj ents) upd = .ok (.obj (mergeUpdates ents upd)) := by
  induction upd with
  | nil => intro ents; rfl
  | cons kv rest ih =>
    intro ents
    obtain ⟨k, v⟩ := kv
    have hstep : applyAssignments (.obj ents) ((k, v) :: rest)
        = applyAssignments (.obj (mergeUpdates ents [(k, v)])) rest := by
      cases v <;> rfl
    have hmerge : mergeUpdates ents ((k, v) :: rest)
        = mergeUpdates (mergeUpdates ents [(k, v)]) rest := by
      cases v <;> rfl
    rw [hstep, ih (mergeUpdates ents [(k, v)]), hmerge]

theorem dget_mergeUpdates (upd : Robj) :
    ∀ (ents : Robj) (k : String),
      dget (mergeUpdates ents upd) k = specMergedValue ents upd k := by
  induction upd with
  | nil => intro ents k; rfl
  | cons kv rest ih =>
    intro ents k
    obtain ⟨k0, v0⟩ := kv
    have hmerge : mergeUpdates ents ((k0, v0) :: rest)
        = mergeUpdates (mergeUpdates ents [(k0, v0)]) rest := by
      cases v0 <;> rfl
    rw [hmerge, ih]
    unfold specMergedValue
    rw [List.reverse_cons, List.find?_append]
    cases hf : (rest.reverse.find? fun p => p.1 == k && !p.2.isNull) with
    | some q => rfl
    | none =>
      simp only [Option.orElse_none, Option.none_orElse]
      by_cases hk : k0 = k
      · subst hk
        cases v0 with
        | null => simp [List.find?, JValue.isNull, mergeUpdates]
        | bool b => simp [List.find?, JValue.isNull, mergeUpdates, dget_dinsert_self]
        | num m e => simp [List.find?, JValue.isNull, mergeUpdates, dget_dinsert_self]
        | str s => simp [List.find?, JValue.isNull, mergeUpdates, dget_dinsert_self]
        | arr xs => simp [List.find?, JValue.isNull, mergeUpdates, dget_dinsert_self]
        | obj fs => simp [List.find?, JValue.isNull, mergeUpdates, dget_dinsert_self]
      · have hne : (k0 == k) = false := by simp [hk]
        cases v0 with
        | null => simp [List.find?, hne, mergeUpdates]
        | bool b => simp [List.find?, hne, mergeUpdates, dget_dinsert_ne _ _ hk]
        | num m e => simp [List.find?, hne, mergeUpdates, dget_dinsert_ne _ _ hk]
        | str s => simp [List.find?, hne, mergeUpdates, dget_dinsert_ne _ _ hk]
        | arr xs => simp [List.find?, hne, mergeUpdates, dget_dinsert_ne _ _ hk]
        | obj fs => simp [List.find?, hne, mergeUpdates, dget_dinsert_ne _ _ hk]

/-! ## Unfolding lemmas for the read operations -/

theorem records_for_case_ok_elim {content cid : String} {l : List Robj}
    (h : records_for_case content cid = .ok l) :
    ∃ objs : List Robj, (load_records content).mapM asObj = .ok objs ∧
      mixedAwareness (objs.filter (matchesCase cid)) = false ∧
      l = (objs.filter (matchesCase cid)).insertionSort recLE := by
  unfold records_for_case records_for_case_list at h
  cases hm : (load_records content).mapM asObj with
  | error e => rw [hm] at h; simp [Bind.bind, Except.bind] at h
  | ok objs =>
    rw [hm] at h
    simp only [Bind.bind, Except.bind] at h
    by_cases hmix : mixedAwareness (objs.filter (matchesCase cid)) = true
    · rw [if_pos hmix] at h
      simp at h
    · rw [if_neg hmix] at h
      exact ⟨objs, rfl, Bool.not_eq_true _ ▸ Bool.of_not_eq_true hmix, (Except.ok.inj h).symm⟩

theorem records_for_case_list_ok_intro {recs : List JValue} {cid : String}
    {objs : List Robj} (hm : recs.mapM asObj = .ok objs)
    (hmix : mixedAwareness (objs.filter (matchesCase cid)) = false) :
    records_for_case_list recs cid
      = .ok ((objs.filter (matchesCase cid)).insertionSort recLE) := by
  unfold records_for_case_list
  rw [hm]
  simp only [Bind.bind, Except.bind]
  rw [if_neg (by simp [hmix])]

theorem case_exists_list_of_records {recs : List JValue} {cid : String} {l : List Robj}
    (h : records_for_case_list recs cid = .ok l) :
    case_exists_list recs cid
      = .ok ((l.reverse).any fun rec => event_type rec == "case_created") := by
  unfold case_exists_list
  rw [h]
  rfl

theorem get_case_state_list_of_records {recs : List JValue} {cid : String} {l : List Robj}
    (h : records_for_case_list recs cid = .ok l) :
    get_case_state_list recs cid =
      (if l.isEmpty then .ok none
       else
         match fold_events l ([], false) with
         | .ok (state, _) => .ok (if state.isEmpty then none else some state)
         | .error e => .error e) := by
  unfold get_case_state_list
  rw [h]
  simp only [Bind.bind, Except.bind]
  by_cases he : l.isEmpty
  · rw [if_pos he, if_pos he]
  · rw [if_neg he, if_neg he]
    cases hf : fold_events l ([], false) with
    | error e => rfl
    | ok st =>
      obtain ⟨s, b⟩ := st
      rfl

theorem mem_records_iff {content cid : String} {l : List Robj} {objs : List Robj}
    (hm : (load_records content).mapM asObj = .ok objs)
    (hl : l = (objs.filter (matchesCase cid)).insertionSort recLE) (r : Robj) :
    r ∈ l ↔ JValue.obj r ∈ load_records content ∧ matchesCase cid r = true := by
  rw [hl, List.mem_insertionSort, List.mem_filter, mapM_asObj_eq hm]
  constructor
  · rintro ⟨hr, hmr⟩
    exact ⟨List.mem_map_of_mem JValue.obj hr, hmr⟩
  · rintro ⟨hr, hmr⟩
    refine ⟨?_, hmr⟩
    obtain ⟨x, hx, hxe⟩ := List.mem_map.mp hr
    cases hxe
    exact hx

/-- C5: a case exists exactly when some ledger record with that case id
resolves to `case_created` (so: false for zero records, true once a creation
is present, regardless of later follow-ups or status checks), and projection
returns `None` exactly when existence says false — on every ledger whose
per-case lookup completes without raising. -/
theorem c5_exists_iff_created (content cid : String) (l : List Robj)
    (h : records_for_case content cid = .ok l) :
    (case_exists content cid = .ok true ↔
      ∃ fs : Robj, JValue.obj fs ∈ load_records content ∧
        matchesCase cid fs = true ∧ event_type fs = "case_created")
    ∧ (get_case_state content cid = .ok none ↔ case_exists content cid = .ok false) := by
  obtain ⟨objs, hm, hmix, hl⟩ := records_for_case_ok_elim h
  have hrl : records_for_case_list (load_records content) cid = .ok l := h
  have hce := case_exists_list_of_records hrl
  have hgc := get_case_state_list_of_records hrl
  have hany : ((l.reverse).any fun rec => event_type rec == "case_created") = true ↔
      ∃ r ∈ l, event_type r = "case_created" := by
    rw [List.any_eq_true]
    constructor
    · rintro ⟨r, hr, hp⟩
      exact ⟨r, List.mem_reverse.mp hr, by simpa using hp⟩
    · rintro ⟨r, hr, hp⟩
      exact ⟨r, List.mem_reverse.mpr hr, by simpa using hp⟩
  have hmem := mem_records_iff hm hl
  constructor
  · rw [show case_exists content cid = case_exists_list (load_records content) cid from rfl, hce]
    constructor
    · intro ht
      obtain ⟨r, hr, he⟩ := hany.mp (Except.ok.inj ht)
      exact ⟨r, (hmem r).mp hr |>.1, (hmem r).mp hr |>.2, he⟩
    · rintro ⟨fs, h1, h2, h3⟩
      rw [hany.mpr ⟨fs, (hmem fs).mpr ⟨h1, h2⟩, h3⟩]
  · rw [show get_case_state content cid = get_case_state_list (load_records content) cid from rfl,
      hgc,
      show case_exists content cid = case_exists_list (load_records content) cid from rfl, hce]
    by_cases he : l.isEmpty
    · rw [if_pos he]
      have hne : ¬ ∃ r ∈ l, event_type r = "case_created" := by
        rintro ⟨r, hr, _⟩
        rw [List.isEmpty_iff.mp he] at hr
        exact absurd hr (List.not_mem_nil r)
      have : ((l.reverse).any fun rec => event_type rec == "case_created") = false := by
        cases hb : (l.reverse).any fun rec => event_type rec == "case_created"
        · rfl
        · exact absurd (hany.mp hb) hne
      rw [this]
      simp
    · rw [if_neg he]
      cases hf : fold_events l ([], false) with
      | error e =>
        dsimp only
        have hex := fold_events_error_create l e hf
        have : ((l.reverse).any fun rec => event_type rec == "case_created") = true :=
          hany.mpr hex
        rw [this]
        constructor
        · intro hfalse
          exact absurd hfalse (by simp)
        · intro hfalse
          exact absurd hfalse (by simp)
      | ok st =>
        obtain ⟨s, saw⟩ := st
        dsimp only
        obtain ⟨hchar1, hchar2⟩ := fold_events_create_char l hf
        cases saw with
        | false =>
          have hs : s = [] := hchar2.mpr rfl
          have hno : ((l.reverse).any fun rec => event_type rec == "case_created") = false := by
            cases hb : (l.reverse).any fun rec => event_type rec == "case_created"
            · rfl
            · have := hchar1.mp (hany.mp hb)
              simp at this
          rw [hs, hno]
          simp
        | true =>
          have hs : s ≠ [] := by
            intro hs0
            have := hchar2.mp hs0
            simp at this
          have hyes : ((l.reverse).any fun rec => event_type rec == "case_created") = true :=
            hany.mpr (hchar1.mpr rfl)
          rw [hyes]
          have hsne : s.isEmpty = false := by
            cases hbe : s.isEmpty
            · rfl
            · exact absurd (List.isEmpty_iff.mp hbe) hs
          rw [hsne]
          simp

theorem records_for_case_list_ok_elim {recs : List JValue} {cid : String} {l : List Robj}
    (h : records_for_case_list recs cid = .ok l) :
    ∃ objs : List Robj, recs.mapM asObj = .ok objs ∧
      mixedAwareness (objs.filter (matchesCase cid)) = false ∧
      l = (objs.filter (matchesCase cid)).insertionSort recLE := by
  unfold records_for_case_list at h
  cases hm : recs.mapM asObj with
  | error e => rw [hm] at h; simp [Bind.bind, Except.bind] at h
  | ok objs =>
    rw [hm] at h
    simp only [Bind.bind, Except.bind] at h
    by_cases hmix : mixedAwareness (objs.filter (matchesCase cid)) = true
    · rw [if_pos hmix] at h
      simp at h
    · rw [if_neg hmix] at h
      exact ⟨objs, rfl, Bool.not_eq_true _ ▸ Bool.of_not_eq_true hmix, (Except.ok.inj h).symm⟩

theorem dropWhile_head_false {α : Type} (p : α → Bool) :
    ∀ (l : List α) (x : α) (xs : List α), l.dropWhile p = x :: xs → p x = false := by
  intro l
  induction l with
  | nil => intro x xs h; simp [List.dropWhile] at h
  | cons a l ih =>
    intro x xs h
    by_cases hp : p a = true
    · rw [List.dropWhile_cons_of_pos hp] at h
      exact ih x xs h
    · rw [List.dropWhile_cons_of_neg hp] at h
      obtain ⟨rfl, _⟩ := List.cons.inj h
      exact Bool.not_eq_true _ ▸ Bool.of_not_eq_true hp

/-! ## The claims -/

/-- C1: projecting a case whose sorted history is a creation followed by
follow-ups merges entity maps per key with "non-null wins": one follow-up
step turns the working entity map `ents` into `mergeUpdates ents upd`, whose
value at each key is the last non-null update for that key, or the previous
value when every update for the key is null; in particular `case_created`
with entities `a:"1", b:null` followed by `follow_up` updating
`a:null, b:"2", c:"3"` projects entities `a:"1", b:"2", c:"3"`. -/
theorem c1_entities_merge_non_null_wins :
    (∀ ents upd : Robj,
        applyAssignments (.obj ents) upd = .ok (.obj (mergeUpdates ents upd)))
    ∧ (∀ (ents upd : Robj) (k : String),
        dget (mergeUpdates ents upd) k = specMergedValue ents upd k)
    ∧ get_case_state contentFwd "CASE-1" = .ok (some demoStateFwd)
    ∧ dget demoStateFwd "entities"
        = some (.obj [("a", .str "1"), ("b", .str "2"), ("c", .str "3")]) :=
  ⟨fun ents upd => applyAssignments_obj upd ents,
   fun ents upd k => dget_mergeUpdates upd ents k,
   rfl, rfl⟩

/-- C2: the per-case sort is claimed never to raise, with missing or
unparsable timestamps sorting earliest — but the fallback key
`datetime.min` is timezone-naive while the system writes timezone-aware
timestamps, and Python raises `TypeError` when its sort compares a naive
key with an aware one.  On a ledger holding an aware `case_created` and a
follow-up with no `created_at`, every read operation raises. -/
theorem c2_mixed_timestamps_raise :
    datetime_min.utcoffset = none
    ∧ (parse_iso (some (.str "2025-01-01T10:00:00+00:00"))).map PyDatetime.isAware
        = some true
    ∧ load_records contentMixed = [demoCreateAware, demoNoTs]
    ∧ records_for_case contentMixed "CASE-2" = .error .typeError
    ∧ get_case_state contentMixed "CASE-2" = .error .typeError
    ∧ case_exists contentMixed "CASE-2" = .error .typeError :=
  ⟨rfl, rfl, rfl, rfl, rfl, rfl⟩

/-- C3 counterexample: `case_store.append_record` — one of the two append
operations the claim covers — performs no validation at all: a payload with
no `case_id` is still written, changing the ledger. -/
theorem c3_counterexample_append_record_writes :
    (match noIdPayload with
      | JValue.obj fs => dget fs "case_id"
      | _ => none) = none
    ∧ append_record noIdPayload "" ≠ "" :=
  ⟨rfl, by decide⟩

/-- C3 (amended): `memory.append_case` rejects, before any write, every
payload that is not a dict as well as every dict payload whose `case_id` is
absent, non-string, or a string with no content after stripping (the empty
string, and whitespace-only strings too, since the guard is
`case_id.strip()`) — the ledger string is returned unchanged.
(`case_store.append_record` performs no such validation.) -/
theorem c3_append_case_rejects_invalid :
    (∀ (fs : Robj) (content : String),
        (∀ s : String, dget fs "case_id" = some (.str s) → pyStrip s = "") →
        append_case (.obj fs) content = content)
    ∧ (∀ (v : JValue) (content : String),
        (∀ fs : Robj, v ≠ .obj fs) →
        append_case v content = content) := by
  constructor
  · intro fs content h
    show (match dget fs "case_id" with
      | some (JValue.str s) =>
        if pyStrip s = "" then content
        else content ++ safe_json_dumps (JValue.obj fs) ++ "\n"
      | _ => content) = content
    cases hv : dget fs "case_id" with
    | none => rfl
    | some v =>
      cases v with
      | str s =>
        have hs := h s hv
        dsimp only
        rw [if_pos hs]
      | null => rfl
      | bool b => rfl
      | num m e => rfl
      | arr xs => rfl
      | obj o => rfl
  · intro v content h
    cases v with
    | obj fs => exact absurd rfl (h fs)
    | null => rfl
    | bool b => rfl
    | num m e => rfl
    | str s => rfl
    | arr xs => rfl

/-- C3 witness: a dict payload without `case_id`, one whose `case_id` is a
whitespace-only string, and a non-dict payload are all rejected with the
ledger untouched. -/
theorem c3_append_case_rejects_invalid_witness :
    append_case (.obj [("foo", JValue.num 1 0)]) "x\n" = "x\n"
    ∧ append_case (.obj [("case_id", .str " ")]) "x\n" = "x\n"
    ∧ append_case (.arr []) "x\n" = "x\n" :=
  ⟨c3_append_case_rejects_invalid.1 [("foo", JValue.num 1 0)] "x\n"
      (fun s hs => by
        rw [show dget [("foo", JValue.num 1 0)] "case_id" = none from rfl] at hs
        exact Option.noConfusion hs),
   c3_append_case_rejects_invalid.1 [("case_id", JValue.str " ")] "x\n"
      (fun s hs => by
        rw [show dget [("case_id", JValue.str " ")] "case_id"
            = some (JValue.str " ") from rfl] at hs
        rw [← JValue.str.inj (Option.some.inj hs)]
        rfl),
   c3_append_case_rejects_invalid.2 (.arr []) "x\n"
      (fun fs hfs => JValue.noConfusion hfs)⟩

/-! ## Permutation lemmas: projection ignores physical append order -/

theorem any_perm {α : Type} (p : α → Bool) {l l' : List α} (h : l.Perm l') :
    l.any p = l'.any p := by
  cases ha : l.any p with
  | true =>
    obtain ⟨x, hx, hp⟩ := List.any_eq_true.mp ha
    exact (List.any_eq_true.mpr ⟨x, h.subset hx, hp⟩).symm
  | false =>
    cases hb : l'.any p with
    | false => rfl
    | true =>
      obtain ⟨x, hx, hp⟩ := List.any_eq_true.mp hb
      have hcon := List.any_eq_true.mpr ⟨x, h.symm.subset hx, hp⟩
      rw [ha] at hcon
      exact Bool.noConfusion hcon

theorem mixedAwareness_perm {l l' : List Robj} (h : l.Perm l') :
    mixedAwareness l = mixedAwareness l' := by
  unfold mixedAwareness
  rw [any_perm _ h, any_perm _ h]

theorem mapM_asObj_ok_of_all_obj :
    ∀ recs : List JValue, (∀ v ∈ recs, ∃ fs : Robj, v = .obj fs) →
      ∃ objs : List Robj, recs.mapM asObj = .ok objs := by
  intro recs
  induction recs with
  | nil => intro _; exact ⟨[], rfl⟩
  | cons v vs ih =>
    intro h
    obtain ⟨fs, rfl⟩ := h v (List.mem_cons_self v vs)
    obtain ⟨objs, hm⟩ := ih (fun x hx => h x (List.mem_cons_of_mem _ hx))
    refine ⟨fs :: objs, ?_⟩
    rw [List.mapM_cons, show asObj (JValue.obj fs) = .ok fs from rfl, hm]
    rfl

theorem mapM_asObj_error_attr :
    ∀ (recs : List JValue) (e : PyErr), recs.mapM asObj = .error e →
      e = .attributeError ∧ ∃ v ∈ recs, asObj v = .error .attributeError := by
  intro recs
  induction recs with
  | nil =>
    intro e h
    simp only [List.mapM_nil, pure, Except.pure] at h
    exact Except.noConfusion h
  | cons v vs ih =>
    intro e h
    rw [List.mapM_cons] at h
    cases hv : asObj v with
    | error e0 =>
      have he0 : e0 = .attributeError := by
        cases v with
        | obj fs => exact absurd hv (by simp [asObj])
        | null => exact (Except.error.inj hv).symm
        | bool b => exact (Except.error.inj hv).symm
        | num m e1 => exact (Except.error.inj hv).symm
        | str s => exact (Except.error.inj hv).symm
        | arr xs => exact (Except.error.inj hv).symm
      rw [hv] at h
      simp only [Bind.bind, Except.bind] at h
      obtain rfl := (Except.error.inj h).symm
      exact ⟨he0, v, List.mem_cons_self v vs, by rw [hv, he0]⟩
    | ok fs =>
      rw [hv] at h
      simp only [Bind.bind, Except.bind] at h
      cases hm : vs.mapM asObj with
      | error e1 =>
        rw [hm] at h
        obtain ⟨he, x, hx, hbad⟩ := ih e1 hm
        obtain rfl := (Except.error.inj h).symm
        exact ⟨he, x, List.mem_cons_of_mem v hx, hbad⟩
      | ok rest =>
        rw [hm] at h
        simp [Pure.pure, Except.pure] at h

theorem mapM_asObj_error_of_mem :
    ∀ (recs : List JValue) (v : JValue), v ∈ recs →
      asObj v = .error .attributeError →
      recs.mapM asObj = .error .attributeError := by
  intro recs
  induction recs with
  | nil => intro v hv _; exact absurd hv (List.not_mem_nil v)
  | cons a t ih =>
    intro v hv hbad
    rw [List.mapM_cons]
    cases ha : asObj a with
    | error e0 =>
      have he0 : e0 = .attributeError := by
        cases a with
        | obj fs => exact absurd ha (by simp [asObj])
        | null => exact (Except.error.inj ha).symm
        | bool b => exact (Except.error.inj ha).symm
        | num m e1 => exact (Except.error.inj ha).symm
        | str s => exact (Except.error.inj ha).symm
        | arr xs => exact (Except.error.inj ha).symm
      rw [he0]
      rfl
    | ok fs =>
      have hvt : v ∈ t := by
        rcases List.mem_cons.mp hv with rfl | hvt
        · rw [ha] at hbad
          exact absurd hbad (by simp)
        · exact hvt
      simp only [Bind.bind, Except.bind]
      rw [ih v hvt hbad]

theorem get_case_state_list_error {recs : List JValue} {cid : String} {e : PyErr}
    (hm : recs.mapM asObj = .error e) :
    get_case_state_list recs cid = .error e := by
  unfold get_case_state_list records_for_case_list
  rw [hm]
  rfl

theorem filterMap_caseFields (cid : String) :
    ∀ objs : List Robj,
      (objs.map JValue.obj).filterMap (caseFields cid) = objs.filter (matchesCase cid) := by
  intro objs
  induction objs with
  | nil => rfl
  | cons fs rest ih =>
    rw [List.map_cons, List.filterMap_cons, List.filter_cons]
    by_cases hmc : matchesCase cid fs = true
    · rw [show caseFields cid (JValue.obj fs) = some fs from by simp [caseFields, hmc], ih,
        if_pos hmc]
    · rw [show caseFields cid (JValue.obj fs) = none from by simp [caseFields, hmc], ih,
        if_neg hmc]

theorem sorted_perm_nodupkeys_eq :
    ∀ l1 l2 : List Robj, l1.Perm l2 → l1.Sorted recLE → l2.Sorted recLE →
      (l1.map fun r => (sort_key r).instantMicros).Nodup → l1 = l2 := by
  intro l1
  induction l1 with
  | nil =>
    intro l2 hp _ _ _
    exact (List.Perm.eq_nil hp.symm).symm
  | cons a t1 ih =>
    intro l2 hp hs1 hs2 hnd
    cases l2 with
    | nil => exact absurd (List.Perm.eq_nil hp) (by simp)
    | cons b t2 =>
      have ha2 : a ∈ b :: t2 := hp.subset (List.mem_cons_self a t1)
      have hb1 : b ∈ a :: t1 := hp.symm.subset (List.mem_cons_self b t2)
      have hab : recLE a b := by
        rcases List.mem_cons.mp hb1 with h | hbt
        · rw [h]
          exact Int.le_refl _
        · exact List.rel_of_sorted_cons hs1 b hbt
      have hba : recLE b a := by
        rcases List.mem_cons.mp ha2 with h | hat
        · rw [h]
          exact Int.le_refl _
        · exact List.rel_of_sorted_cons hs2 a hat
      have hkey : (sort_key a).instantMicros = (sort_key b).instantMicros :=
        Int.le_antisymm hab hba
      have hEq : a = b := by
        rcases List.mem_cons.mp ha2 with h | hat
        · exact h
        · rcases List.mem_cons.mp hb1 with h | hbt
          · exact h.symm
          · have hmem2 : (sort_key b).instantMicros
                ∈ t1.map fun r => (sort_key r).instantMicros :=
              List.mem_map_of_mem (fun r => (sort_key r).instantMicros) hbt
            rw [← hkey] at hmem2
            rw [List.map_cons, List.nodup_cons] at hnd
            exact absurd hmem2 hnd.1
      subst hEq
      have ht : t1.Perm t2 := hp.cons_inv
      rw [List.map_cons, List.nodup_cons] at hnd
      rw [ih t2 ht (List.Sorted.of_cons hs1) (List.Sorted.of_cons hs2) hnd.2]

theorem get_case_state_list_perm (recs1 recs2 : List JValue) (cid : String)
    (hperm : recs1.Perm recs2)
    (hnd : ∀ objs1 : List Robj, recs1.mapM asObj = .ok objs1 →
      ((objs1.filter (matchesCase cid)).map fun r => (sort_key r).instantMicros).Nodup) :
    get_case_state_list recs1 cid = get_case_state_list recs2 cid := by
  cases hm1 : recs1.mapM asObj with
  | error e =>
    obtain ⟨rfl, v, hv, hbad⟩ := mapM_asObj_error_attr recs1 e hm1
    have hm2 := mapM_asObj_error_of_mem recs2 v (hperm.subset hv) hbad
    rw [get_case_state_list_error hm1, get_case_state_list_error hm2]
  | ok objs1 =>
    have hall1 : recs1 = objs1.map JValue.obj := mapM_asObj_eq hm1
    have hall2 : ∀ v ∈ recs2, ∃ fs : Robj, v = .obj fs := by
      intro v hv
      have hv1 : v ∈ objs1.map JValue.obj := hall1 ▸ hperm.symm.subset hv
      obtain ⟨fs, _, rfl⟩ := List.mem_map.mp hv1
      exact ⟨fs, rfl⟩
    obtain ⟨objs2, hm2⟩ := mapM_asObj_ok_of_all_obj recs2 hall2
    have hall2' : recs2 = objs2.map JValue.obj := mapM_asObj_eq hm2
    have hpfil : (objs1.filter (matchesCase cid)).Perm (objs2.filter (matchesCase cid)) := by
      rw [← filterMap_caseFields cid objs1, ← filterMap_caseFields cid objs2,
        ← hall1, ← hall2']
      exact hperm.filterMap (caseFields cid)
    have hmixeq : mixedAwareness (objs1.filter (matchesCase cid))
        = mixedAwareness (objs2.filter (matchesCase cid)) := mixedAwareness_perm hpfil
    by_cases hmix : mixedAwareness (objs1.filter (matchesCase cid)) = true
    · have hr1 : records_for_case_list recs1 cid = .error .typeError := by
        unfold records_for_case_list
        rw [hm1]
        simp only [Bind.bind, Except.bind]
        rw [if_pos hmix]
      have hr2 : records_for_case_list recs2 cid = .error .typeError := by
        unfold records_for_case_list
        rw [hm2]
        simp only [Bind.bind, Except.bind]
        rw [if_pos (hmixeq ▸ hmix)]
      unfold get_case_state_list
      rw [hr1, hr2]
    · have hmixf : mixedAwareness (objs1.filter (matchesCase cid)) = false :=
        Bool.not_eq_true _ ▸ Bool.of_not_eq_true hmix
      have hr1 := records_for_case_list_ok_intro hm1 hmixf
      have hr2 := records_for_case_list_ok_intro hm2 (hmixeq ▸ hmixf)
      have hsorteq : (objs1.filter (matchesCase cid)).insertionSort recLE
          = (objs2.filter (matchesCase cid)).insertionSort recLE := by
        apply sorted_perm_nodupkeys_eq
        · exact ((List.perm_insertionSort recLE _).trans hpfil).trans
            (List.perm_insertionSort recLE _).symm
        · exact List.sorted_insertionSort recLE _
        · exact List.sorted_insertionSort recLE _
        · have hnd1 := hnd objs1 hm1
          have hpm : ((objs1.filter (matchesCase cid)).insertionSort recLE).Perm
              (objs1.filter (matchesCase cid)) := List.perm_insertionSort recLE _
          exact ((hpm.map fun r => (sort_key r).instantMicros).nodup_iff).mpr hnd1
      rw [get_case_state_list_of_records hr1, get_case_state_list_of_records hr2, hsorteq]

/-- C4 counterexample: on a ledger where the follow-up is physically
appended before its case's creation and carries a later wall-clock
timestamp, but the two timestamps mix timezone-aware and naive, projection
raises `TypeError` instead of folding — the follow-up is not applied at
all, so projection is not always independent of physical order as claimed. -/
theorem c4_counterexample_mixed_order_raises :
    load_records contentMix2 = [demoFollowUpAware, demoCreate]
    ∧ get_case_state contentMix2 "CASE-1" = .error .typeError :=
  ⟨rfl, rfl⟩

/-- C4 (amended): projection is independent of the ledger's physical append
order: for every pair of ledgers holding the same records in any two orders,
whenever the case's sort keys are pairwise distinct (as they are when one
record carries a strictly later `created_at` than another) the projected
state is identical — so a `follow_up` physically appended before its case's
`case_created` but logically later is still applied after creation, as the
demo pair shows concretely with its entity update in effect; moreover a
prefix of the sorted history with no `case_created` contributes nothing to
the fold, the fold only depends on the history from the first
`case_created` on, and (whenever the per-case sort completes) a `follow_up`
whose key is strictly below every `case_created` key lands in that
discarded prefix. -/
theorem c4_logical_order_independent :
    (get_case_state contentRev "CASE-1" = get_case_state contentFwd "CASE-1"
      ∧ get_case_state contentFwd "CASE-1" = .ok (some demoStateFwd))
    ∧ (∀ (recs1 recs2 : List JValue) (cid : String),
        recs1.Perm recs2 →
        (∀ objs1 : List Robj, recs1.mapM asObj = .ok objs1 →
          ((objs1.filter (matchesCase cid)).map
            fun r => (sort_key r).instantMicros).Nodup) →
        get_case_state_list recs1 cid = get_case_state_list recs2 cid)
    ∧ (∀ (l1 l2 : List Robj) (s : Robj),
        (∀ r ∈ l1, event_type r ≠ "case_created") →
        fold_events (l1 ++ l2) (s, false) = fold_events l2 (s, false))
    ∧ (∀ l : List Robj,
        fold_events l ([], false) = fold_events (l.dropWhile notCreate) ([], false))
    ∧ (∀ (content cid : String) (l : List Robj),
        records_for_case content cid = .ok l →
        ∀ r ∈ l, event_type r = "follow_up" →
        (∀ c ∈ l, event_type c = "case_created" →
          (sort_key r).instantMicros < (sort_key c).instantMicros) →
        r ∉ l.dropWhile notCreate) := by
  refine ⟨⟨rfl, rfl⟩, get_case_state_list_perm, fold_events_skip_prefix,
    fold_events_dropWhile, ?_⟩
  intro content cid l h r hr hfu hlt hmem
  obtain ⟨objs, hm, hmix, hl⟩ := records_for_case_ok_elim h
  have hsorted : l.Sorted recLE := hl ▸ List.sorted_insertionSort recLE _
  cases hd : l.dropWhile notCreate with
  | nil => rw [hd] at hmem; exact absurd hmem (List.not_mem_nil r)
  | cons x0 xs =>
    have hx0 : notCreate x0 = false := dropWhile_head_false notCreate l x0 xs hd
    have hx0create : event_type x0 = "case_created" := by
      simpa [notCreate] using hx0
    have hsorted' : (x0 :: xs).Sorted recLE :=
      hd ▸ hsorted.sublist (List.dropWhile_sublist notCreate)
    rw [hd] at hmem
    rcases List.mem_cons.mp hmem with rfl | hmem'
    · rw [hfu] at hx0create
      exact absurd hx0create (by decide)
    · have hle : recLE x0 r := List.rel_of_sorted_cons hsorted' r hmem'
      have hx0mem : x0 ∈ l :=
        (List.dropWhile_sublist notCreate).subset
          (hd ▸ List.mem_cons_self x0 xs)
      exact absurd hle (not_le.mpr (hlt x0 hx0mem hx0create))

/-- C4 witness: the general conjuncts applied to concrete histories — a
creates-free prefix is skipped, the fold agrees with its create-suffix, and
the logically-earlier follow-up of `contentEarlyFu` is outside the folded
suffix. -/
theorem c4_logical_order_independent_witness :
    get_case_state_list [demoFollowUp, demoCreate] "CASE-1"
        = get_case_state_list [demoCreate, demoFollowUp] "CASE-1"
    ∧ fold_events ([demoFuEarlyFields] ++ [demoCreateFields]) ([], false)
        = fold_events [demoCreateFields] ([], false)
    ∧ fold_events [demoFuEarlyFields, demoCreateFields] ([], false)
        = fold_events ([demoFuEarlyFields, demoCreateFields].dropWhile notCreate) ([], false)
    ∧ demoFuEarlyFields ∉
        ([demoFuEarlyFields, demoCreateFields].dropWhile notCreate) :=
  ⟨c4_logical_order_independent.2.1 [demoFollowUp, demoCreate]
      [demoCreate, demoFollowUp] "CASE-1"
      (List.Perm.swap demoCreate demoFollowUp [])
      (fun objs1 h => by
        rw [show ([demoFollowUp, demoCreate] : List JValue).mapM asObj
            = .ok [demoFollowUpFields, demoCreateFields] from rfl] at h
        rw [← Except.ok.inj h]
        decide),
   c4_logical_order_independent.2.2.1 [demoFuEarlyFields] [demoCreateFields] []
      (by decide),
   c4_logical_order_independent.2.2.2.1 [demoFuEarlyFields, demoCreateFields],
   c4_logical_order_independent.2.2.2.2 contentEarlyFu "CASE-1"
      [demoFuEarlyFields, demoCreateFields] (by rfl)
      demoFuEarlyFields (List.mem_cons_self _ _) (by decide) (by decide)⟩

/-- C6 counterexample: a record whose `event_type` field is the non-empty
string `" "` is not resolved to its trimmed value (the empty string): since
the trimmed value has no content, the resolver falls through to the
legacy-creation inference and returns `case_created`. -/
theorem c6_counterexample_whitespace_event_type :
    dget blankEtRec "event_type" = some (.str " ")
    ∧ (" " : String) ≠ ""
    ∧ pyStrip " " = ""
    ∧ event_type blankEtRec = "case_created"
    ∧ event_type blankEtRec ≠ pyStrip " " :=
  ⟨rfl, by decide, rfl, rfl, by decide⟩

/-- C6 (amended): the resolver returns the trimmed `event_type` when the
field holds a string that is non-empty after trimming; otherwise (the field
absent, non-string, or whitespace-only) it returns `case_created` exactly
when the record has a routing key, an entities key, and a request-text or
summary key, and `unknown` otherwise. -/
theorem c6_event_type_resolution :
    (∀ (rec : Robj) (s : String),
        dget rec "event_type" = some (.str s) → pyStrip s ≠ "" →
        event_type rec = pyStrip s)
    ∧ (∀ rec : Robj,
        (∀ s : String, dget rec "event_type" = some (.str s) → pyStrip s = "") →
        hasKey rec "routing" = true → hasKey rec "entities" = true →
        (hasKey rec "request_text" = true ∨ hasKey rec "summary" = true) →
        event_type rec = "case_created")
    ∧ (∀ rec : Robj,
        (∀ s : String, dget rec "event_type" = some (.str s) → pyStrip s = "") →
        ¬(hasKey rec "routing" = true ∧ hasKey rec "entities" = true ∧
          (hasKey rec "request_text" = true ∨ hasKey rec "summary" = true)) →
        event_type rec = "unknown") := by
  refine ⟨?_, ?_, ?_⟩
  · intro rec s hv hs
    unfold event_type
    rw [hv]
    dsimp only
    rw [if_neg hs]
  · intro rec hws h1 h2 h3
    have hleg : legacyCreateShape rec = true := by
      rcases h3 with h3 | h3 <;> simp [legacyCreateShape, h1, h2, h3]
    unfold event_type
    cases hv : dget rec "event_type" with
    | none => simp [hleg]
    | some v =>
      cases v with
      | str s =>
        have hs := hws s hv
        simp [hs, hleg]
      | null => simp [hleg]
      | bool b => simp [hleg]
      | num m e => simp [hleg]
      | arr xs => simp [hleg]
      | obj o => simp [hleg]
  · intro rec hws hnot
    have hleg : legacyCreateShape rec = false := by
      cases hL : legacyCreateShape rec with
      | false => rfl
      | true =>
        have hx : (hasKey rec "routing" = true ∧ hasKey rec "entities" = true) ∧
            (hasKey rec "request_text" = true ∨ hasKey rec "summary" = true) := by
          simpa [legacyCreateShape, Bool.and_eq_true, Bool.or_eq_true] using hL
        exact absurd ⟨hx.1.1, hx.1.2, hx.2⟩ hnot
    unfold event_type
    cases hv : dget rec "event_type" with
    | none => simp [hleg]
    | some v =>
      cases v with
      | str s =>
        have hs := hws s hv
        simp [hs, hleg]
      | null => simp [hleg]
      | bool b => simp [hleg]
      | num m e => simp [hleg]
      | arr xs => simp [hleg]
      | obj o => simp [hleg]

/-- C6 witness: each branch of the amended resolution applied to a concrete
record. -/
theorem c6_event_type_resolution_witness :
    event_type [("event_type", .str " follow_up ")] = pyStrip " follow_up "
    ∧ event_type blankEtRec = "case_created"
    ∧ event_type ([] : Robj) = "unknown" :=
  ⟨c6_event_type_resolution.1 [("event_type", .str " follow_up ")] " follow_up "
      rfl (by decide),
   c6_event_type_resolution.2.1 blankEtRec
      (fun s h => by
        have h2 : JValue.str " " = JValue.str s := Option.some.inj h
        rw [← JValue.str.inj h2]
        rfl)
      rfl rfl (Or.inr rfl),
   c6_event_type_resolution.2.2 ([] : Robj)
      (fun s h => Option.noConfusion h)
      (by decide)⟩

/-- C7 counterexample: inserting a `status_check` record whose timestamp is
timezone-aware into a ledger whose other keys are naive changes the
projection from a state to a raised `TypeError` — so status-check insertion
does not always leave the projected state unchanged. -/
theorem c7_counterexample_status_insertion :
    event_type demoStatusAwareFields = "status_check"
    ∧ get_case_state contentBase "CASE-1" = .ok (some demoStateBase)
    ∧ get_case_state contentPadded "CASE-1" = .error .typeError
    ∧ get_case_state contentPadded "CASE-1" ≠ get_case_state contentBase "CASE-1" := by
  refine ⟨rfl, rfl, rfl, ?_⟩
  rw [show get_case_state contentPadded "CASE-1" = .error .typeError from rfl,
    show get_case_state contentBase "CASE-1" = .ok (some demoStateBase) from rfl]
  exact fun h => Except.noConfusion h

/-- C7 (amended): inserting any number of `status_check`-resolving records
at any positions in the ledger leaves the projected state of every case
unchanged, provided the augmented ledger's per-case sort still completes
(the insertions introduce no timezone-aware/naive key mixture). -/
theorem c7_status_checks_inert (recs recs' : List JValue) (cid : String)
    (l' : List Robj) (hpad : StatusPadded recs recs')
    (h' : records_for_case_list recs' cid = .ok l') :
    get_case_state_list recs' cid = get_case_state_list recs cid := by
  obtain ⟨objs', hm', hmix', hl'⟩ := records_for_case_list_ok_elim h'
  obtain ⟨objs, hm, hsp⟩ := spadded_mapM hpad hm'
  have hspf : SPadded (objs.filter (matchesCase cid)) (objs'.filter (matchesCase cid)) :=
    SPadded.filter (matchesCase cid) hsp
  have hmix : mixedAwareness (objs.filter (matchesCase cid)) = false :=
    mixed_of_sublist hspf.sublist hmix'
  have h : records_for_case_list recs cid
      = .ok ((objs.filter (matchesCase cid)).insertionSort recLE) :=
    records_for_case_list_ok_intro hm hmix
  have hfoldeq :
      fold_events ((objs'.filter (matchesCase cid)).insertionSort recLE) ([], false)
        = fold_events ((objs.filter (matchesCase cid)).insertionSort recLE) ([], false) := by
    rw [fold_events_filter_status ((objs'.filter (matchesCase cid)).insertionSort recLE),
      fold_events_filter_status ((objs.filter (matchesCase cid)).insertionSort recLE),
      filter_insertionSort, filter_insertionSort, hspf.filter_notStatusEq]
  rw [get_case_state_list_of_records h', get_case_state_list_of_records h, hl']
  by_cases hemp' : ((objs'.filter (matchesCase cid)).insertionSort recLE).isEmpty
  · have hnil' : objs'.filter (matchesCase cid) = [] := by
      have := List.isEmpty_iff.mp hemp'
      have hlen := List.length_insertionSort recLE (objs'.filter (matchesCase cid))
      rw [this] at hlen
      exact List.length_eq_zero.mp hlen.symm
    have hnil : objs.filter (matchesCase cid) = [] :=
      List.sublist_nil.mp (hnil' ▸ hspf.sublist)
    rw [if_pos hemp', if_pos (by simp [hnil])]
  · rw [if_neg hemp']
    by_cases hemp : ((objs.filter (matchesCase cid)).insertionSort recLE).isEmpty
    · rw [if_pos hemp]
      have hnil : (objs.filter (matchesCase cid)).insertionSort recLE = [] :=
        List.isEmpty_iff.mp hemp
      rw [hfoldeq, hnil]
      rfl
    · rw [if_neg hemp, hfoldeq]

/-- C7 witness: inserting a naive-timestamp status check in front of the
demo creation leaves projection unchanged. -/
theorem c7_status_checks_inert_witness :
    get_case_state_list [demoStatusNaive, demoCreate] "CASE-1"
      = get_case_state_list [demoCreate] "CASE-1" :=
  c7_status_checks_inert [demoCreate] [demoStatusNaive, demoCreate] "CASE-1"
    [demoCreateFields, demoStatusNaiveFields]
    (StatusPadded.pad demoStatusNaiveFields rfl
      (StatusPadded.keep demoCreate StatusPadded.nil))
    (by rfl)

/-- C8: in a folded `follow_up` step, the presence of `missing_info_after`
(whatever its value, empty list included) replaces the working missing-field
list wholesale with the list coerced from that value — never a union — and
its absence leaves the working list untouched. -/
theorem c8_missing_info_replaced_wholesale :
    ∀ (state rec s' : Robj),
      event_type rec = "follow_up" →
      apply_follow_up state rec = .ok s' →
      (hasKey rec "missing_info_after" = true →
        ∃ ml : List JValue, pyListArg (dget rec "missing_info_after") = .ok ml ∧
          dget s' "missing_info" = some (.arr ml))
      ∧ (hasKey rec "missing_info_after" = false →
        dget s' "missing_info" = dget state "missing_info") := by
  intro state rec s' _ h
  have hset : dget (setdefaultEntities state) "missing_info" = dget state "missing_info" := by
    unfold setdefaultEntities
    by_cases hk : hasKey state "entities" = true
    · rw [if_pos hk]
    · rw [if_neg hk, dget_dinsert_ne _ _ (by decide)]
  unfold apply_follow_up at h
  cases h1 : pyItemsArg (dget rec "entities_update") with
  | error e => rw [h1] at h; simp [Bind.bind, Except.bind] at h
  | ok upd =>
    rw [h1] at h
    simp only [Bind.bind, Except.bind] at h
    cases h2 : applyAssignments (dgetD (setdefaultEntities state) "entities") upd with
    | error e => rw [h2] at h; simp at h
    | ok ev =>
      rw [h2] at h
      dsimp only at h
      by_cases h3 : hasKey rec "missing_info_after" = true
      · rw [if_pos h3] at h
        cases h4 : pyListArg (dget rec "missing_info_after") with
        | error e => rw [h4] at h; simp [Pure.pure, Except.pure] at h
        | ok ml =>
          rw [h4] at h
          simp only [Pure.pure, Except.pure, Except.ok.injEq] at h
          subst h
          constructor
          · intro _
            refine ⟨ml, rfl, ?_⟩
            rw [dget_dinsert_ne _ _ (by decide), dget_dinsert_ne _ _ (by decide),
              dget_dinsert_self]
          · intro hk
            rw [hk] at h3
            exact absurd h3 (by simp)
      · rw [if_neg h3] at h
        simp only [Pure.pure, Except.pure, Except.ok.injEq] at h
        subst h
        constructor
        · intro hk
          exact absurd hk h3
        · intro _
          rw [dget_dinsert_ne _ _ (by decide), dget_dinsert_ne _ _ (by decide),
            dget_dinsert_ne _ _ (by decide), hset]

/-- C8 witness: the demo follow-up (which carries `missing_info_after`)
replaces the working list with `["y"]`, applied to the demo creation
state. -/
theorem c8_missing_info_replaced_wholesale_witness :
    (hasKey demoFollowUpFields "missing_info_after" = true →
      ∃ ml : List JValue,
        pyListArg (dget demoFollowUpFields "missing_info_after") = .ok ml ∧
        dget demoStateFwd "missing_info" = some (.arr ml))
    ∧ (hasKey demoFollowUpFields "missing_info_after" = false →
      dget demoStateFwd "missing_info" = dget demoStateBase "missing_info") :=
  c8_missing_info_replaced_wholesale demoStateBase demoFollowUpFields demoStateFwd
    rfl rfl

/-! ## Line-scan lemmas -/

theorem load_records_lines_acc (lines : List (List Char)) :
    ∀ acc : List JValue,
      lines.foldl
        (fun out line =>
          let l := stripChars line
          if l.isEmpty then out
          else
            match jsonParse l with
            | some v => out ++ [v]
            | none => out)
        acc
      = acc ++ lines.filterMap (fun line => jsonParse (stripChars line)) := by
  induction lines with
  | nil => intro acc; simp
  | cons line rest ih =>
    intro acc
    rw [List.foldl_cons, ih]
    by_cases he : (stripChars line).isEmpty
    · have hn : jsonParse (stripChars line) = none := by
        rw [List.isEmpty_iff.mp he]
        rfl
      simp [he, hn]
    · cases hj : jsonParse (stripChars line) with
      | none => simp [he, hj]
      | some v => simp [he, hj]

/-- C9: the scan returns exactly the values of the lines that parse as JSON
after stripping, in file order; a line that fails to decode is skipped
without disturbing the rest of the scan; concretely, a corrupt line between
the two demo events changes neither the loaded records nor the projection. -/
theorem c9_bad_lines_skipped :
    (∀ lines : List (List Char),
        load_records_lines lines
          = lines.filterMap (fun line => jsonParse (stripChars line)))
    ∧ (∀ (l1 l2 : List (List Char)) (bad : List Char),
        jsonParse (stripChars bad) = none →
        load_records_lines (l1 ++ bad :: l2) = load_records_lines (l1 ++ l2))
    ∧ load_records contentCorrupt = [demoCreate, demoFollowUp]
    ∧ get_case_state contentCorrupt "CASE-1" = .ok (some demoStateFwd)
    ∧ get_case_state contentCorrupt "CASE-1" = get_case_state contentFwd "CASE-1" := by
  have hchar : ∀ lines : List (List Char),
      load_records_lines lines
        = lines.filterMap (fun line => jsonParse (stripChars line)) := by
    intro lines
    unfold load_records_lines
    rw [load_records_lines_acc lines []]
    rfl
  refine ⟨hchar, ?_, rfl, rfl, rfl⟩
  intro l1 l2 bad hbad
  rw [hchar, hchar, List.filterMap_append, List.filterMap_append, List.filterMap_cons, hbad]

/-- C9 witness: a concrete undecodable line between two valid ones is
skipped. -/
theorem c9_bad_lines_skipped_witness :
    load_records_lines (["[1]".data] ++ "oops".data :: ["2".data])
      = load_records_lines (["[1]".data] ++ ["2".data]) :=
  c9_bad_lines_skipped.2.1 ["[1]".data] ["2".data] "oops".data rfl

/-- C10: the per-case sort is stable: for every key value, the records whose
parsed `created_at` (with the `datetime.min` fallback for missing or
unparsable ones) yields that key appear in the sorted history in exactly
their physical order in the ledger, so ties are folded in append order. -/
theorem c10_sort_is_stable (recs : List JValue) (cid : String) (l objs : List Robj)
    (hm : recs.mapM asObj = .ok objs)
    (h : records_for_case_list recs cid = .ok l) (K : Int) :
    l.filter (fun r => (sort_key r).instantMicros == K)
      = (objs.filter (matchesCase cid)).filter
          (fun r => (sort_key r).instantMicros == K) := by
  obtain ⟨objs', hm', hmix, hl⟩ := records_for_case_list_ok_elim h
  rw [hm] at hm'
  obtain rfl := Except.ok.inj hm'
  subst hl
  rw [filter_insertionSort]
  apply List.Sorted.insertionSort_eq
  apply List.pairwise_of_forall_mem_list
  intro a ha b hb
  have hka := (List.mem_filter.mp ha).2
  have hkb := (List.mem_filter.mp hb).2
  have ha' : (sort_key a).instantMicros = K := by simpa using hka
  have hb' : (sort_key b).instantMicros = K := by simpa using hkb
  show recLE a b
  unfold recLE
  rw [ha', hb']

/-- C10 witness: two follow-ups with no timestamp share the `datetime.min`
key and keep their append order. -/
theorem c10_sort_is_stable_witness :
    ([demoNoTsFields, demoNoTs2Fields].filter
        (fun r => (sort_key r).instantMicros == datetime_min.instantMicros))
      = (([demoNoTsFields, demoNoTs2Fields].filter (matchesCase "CASE-2")).filter
          (fun r => (sort_key r).instantMicros == datetime_min.instantMicros)) :=
  c10_sort_is_stable [demoNoTs, demoNoTs2] "CASE-2"
    [demoNoTsFields, demoNoTs2Fields] [demoNoTsFields, demoNoTs2Fields]
    (by rfl) (by rfl) datetime_min.instantMicros

/-- C5 witness: the biconditionals instantiated on the two-event demo
ledger. -/
theorem c5_exists_iff_created_witness :
    (case_exists contentFwd "CASE-1" = .ok true ↔
      ∃ fs : Robj, JValue.obj fs ∈ load_records contentFwd ∧
        matchesCase "CASE-1" fs = true ∧ event_type fs = "case_created")
    ∧ (get_case_state contentFwd "CASE-1" = .ok none ↔
        case_exists contentFwd "CASE-1" = .ok false) :=
  c5_exists_iff_created contentFwd "CASE-1"
    [demoCreateFields, demoFollowUpFields] (by rfl)

/-- C5 counterexample: on the mixed-timestamp ledger a `case_created`
record for CASE-2 is present, yet `case_exists` raises `TypeError` instead
of returning true — the stated biconditional fails when the sort raises. -/
theorem c5_counterexample_exists_raises :
    (∃ fs : Robj, JValue.obj fs ∈ load_records contentMixed ∧
      matchesCase "CASE-2" fs = true ∧ event_type fs = "case_created")
    ∧ case_exists contentMixed "CASE-2" = .error .typeError
    ∧ case_exists contentMixed "CASE-2" ≠ .ok true := by
  refine ⟨⟨demoCreateAwareFields, ?_, rfl, rfl⟩, rfl, ?_⟩
  · rw [show load_records contentMixed = [demoCreateAware, demoNoTs] from rfl]
    exact List.mem_cons_self _ _
  · intro h
    rw [show case_exists contentMixed "CASE-2" = Except.error PyErr.typeError from rfl] at h
    exact Except.noConfusion h
